import Mathlib

/-!
Shallow embedding of the chunked voxel-world engine in `src/game.js`.

Conventions used throughout:
* JS numbers appearing in the chunk/edit subsystem are modelled as rationals
  (all arithmetic there is exact: floors, `+ 0.5` offsets, equality tests).
* The collision subsystem does real geometry (square roots), so it is modelled
  over the real numbers.
* JS `Map`s are modelled as functions into `Option`; `Map.set`/`Map.delete`
  become the pointwise updates `mset`/`mdel`.  String keys built by
  template literals from integer triples (`getChunkKey`, `getCellKey`) are in
  bijection with the triples themselves, so keys are modelled as `ℤ × ℤ × ℤ`.
* JS arrays are modelled as lists; plain index assignment (which can extend an
  array) is `jsArraySet`, truncation by assigning `.length` is `List.take`.
-/

namespace VoxelGame

/-- The two block materials: `"green"` is generated ground, `"brown"` is
player-placed (source: `greenMat` / `brownMat` and the `"green"` / `"brown"`
type tags). -/
inductive BlockType
  | green
  | brown
deriving DecidableEq

/-- Integer cell coordinates, the content of a `getCellKey` string. -/
abbrev Cell := ℤ × ℤ × ℤ

/-- Integer chunk coordinates, the content of a `getChunkKey` /
`getChunkKeyFromCoords` string. -/
abbrev ChunkKey := ℤ × ℤ × ℤ

/-- `Map.get`-style maps as functions; `mset` is `Map.set`. -/
def mset {α β : Type*} [DecidableEq α] (m : α → Option β) (k : α) (v : β) :
    α → Option β :=
  fun q => if q = k then some v else m q

/-- `Map.delete`. -/
def mdel {α β : Type*} [DecidableEq α] (m : α → Option β) (k : α) :
    α → Option β :=
  fun q => if q = k then none else m q

/-- Update a per-material table (`{green: …, brown: …}` records in the
source) at one material. -/
def tset {β : Type*} (f : BlockType → β) (t : BlockType) (v : β) :
    BlockType → β :=
  fun q => if q = t then v else f q

/-- JS array index assignment `a[i] = v`: in-range writes replace, a write at
or past the length extends the array (the source only ever writes at index
`length`, so no holes arise; out-of-range gaps would be `d`). -/
def jsArraySet {α : Type*} (l : List α) (i : ℕ) (v : α) (d : α) : List α :=
  if i < l.length then l.set i v
  else l ++ List.replicate (i - l.length) d ++ [v]

/-- Source constant `CHUNK_SIZE = 16`. -/
def CHUNK_SIZE : ℕ := 16

/-- Source constant `RENDER_DISTANCE = 2`. -/
def RENDER_DISTANCE : ℤ := 2

/-- Source constant `cubeSize = 1`. -/
def cubeSize : ℚ := 1

/-- `getChunkKey(pos)`: per-axis `Math.floor(pos.c / CHUNK_SIZE)`. -/
def getChunkKey (x y z : ℚ) : ChunkKey :=
  (⌊x / (CHUNK_SIZE : ℚ)⌋, ⌊y / (CHUNK_SIZE : ℚ)⌋, ⌊z / (CHUNK_SIZE : ℚ)⌋)

/-- `getChunkKeyFromCoords(cx, cy, cz)`. -/
def getChunkKeyFromCoords (cx cy cz : ℤ) : ChunkKey := (cx, cy, cz)

/-- `getCellKey(pos)`: per-axis `Math.floor`. -/
def getCellKey (x y z : ℚ) : Cell := (⌊x⌋, ⌊y⌋, ⌊z⌋)

/-- `snapToGrid(v) = Math.floor(v / cubeSize) * cubeSize + cubeSize / 2`. -/
def snapToGrid (v : ℚ) : ℚ := ⌊v / cubeSize⌋ * cubeSize + cubeSize / 2

/-- A stored instance transform.  The source stores full 4×4 matrices but only
ever writes pure translations (`tmpMat.makeTranslation(x, y, z)`) and only ever
reads the translation back, so a transform is modelled by its translation. -/
structure Pos where
  x : ℚ
  y : ℚ
  z : ℚ
deriving DecidableEq

/-- An entry `[x, y, z, type]` of a `chunkData` array. -/
structure CellEntry where
  x : ℚ
  y : ℚ
  z : ℚ
  ty : BlockType
deriving DecidableEq

/-- The cell key of a `chunkData` entry. -/
def entryCell (e : CellEntry) : Cell := getCellKey e.x e.y e.z

/-- The world point at the center of a cell (each coordinate `c + 0.5`),
exactly what `snapToGrid` produces for any point inside the cell. -/
def posCenter (c : Cell) : Pos :=
  ⟨(c.1 : ℚ) + 1 / 2, (c.2.1 : ℚ) + 1 / 2, (c.2.2 : ℚ) + 1 / 2⟩

/-- One `THREE.InstancedMesh` as the engine uses it: a backing store of
`capacity` transforms (zero-filled on creation) plus the drawn-instance
`count`. -/
structure InstMesh where
  buffer : List Pos
  count : ℕ
deriving DecidableEq

/-- `createInstancedMesh(material, capacity)`; the material only affects
rendering and is not part of the model.  `mesh.count = 0` initially. -/
def createInstancedMesh (capacity : ℕ) : InstMesh :=
  ⟨List.replicate capacity ⟨0, 0, 0⟩, 0⟩

/-- One `ChunkRecord` (source: `makeEmptyChunkRecord`): occupancy map, one
optional instanced mesh per material, the cell→index map, the index→cell
array, the active count and the allocated capacity per material. -/
structure ChunkRecord where
  occupancy : Cell → Option BlockType
  meshes : BlockType → Option InstMesh
  indexMaps : BlockType → Cell → Option ℕ
  cellsByIndex : BlockType → List Cell
  counts : BlockType → ℕ
  capacities : BlockType → ℕ

/-- `makeEmptyChunkRecord()`. -/
def makeEmptyChunkRecord : ChunkRecord :=
  { occupancy := fun _ => none
    meshes := fun _ => none
    indexMaps := fun _ _ => none
    cellsByIndex := fun _ => []
    counts := fun _ => 0
    capacities := fun _ => 0 }

/-- `mesh.getMatrixAt(i)` on `record.meshes[type]` (the source never calls it
with a null mesh or out of range; reads outside give the zero transform). -/
def meshGetMatrixAt (rec : ChunkRecord) (t : BlockType) (i : ℕ) : Pos :=
  ((rec.meshes t).map fun m => m.buffer.getD i ⟨0, 0, 0⟩).getD ⟨0, 0, 0⟩

/-- `record.meshes[type].setMatrixAt(i, m)`; a write past the capacity of the
underlying buffer is silently dropped, as for a `Float32Array`. -/
def meshSetMatrixAt (rec : ChunkRecord) (t : BlockType) (i : ℕ) (p : Pos) :
    ChunkRecord :=
  { rec with
    meshes := tset rec.meshes t
      ((rec.meshes t).map fun m => { m with buffer := m.buffer.set i p }) }

/-- `record.meshes[type].count = n`. -/
def meshSetCount (rec : ChunkRecord) (t : BlockType) (n : ℕ) : ChunkRecord :=
  { rec with
    meshes := tset rec.meshes t
      ((rec.meshes t).map fun m => { m with count := n }) }

/-- `ensureCapacityForType(record, type, needed)`: on growth the new capacity
is `max(needed, max(8, 2 * current))`, the first `counts[type]` transforms are
copied index-preserving into the fresh zero-filled store, and the new mesh's
draw count is set to `counts[type]` (there is nothing to copy when no mesh
exists yet).  When `capacities[type] >= needed` the record is untouched. -/
def ensureCapacityForType (rec : ChunkRecord) (t : BlockType) (needed : ℕ) :
    ChunkRecord :=
  if needed ≤ rec.capacities t then rec
  else
    let newCapacity := max needed (max 8 (rec.capacities t * 2))
    let newMesh0 := createInstancedMesh newCapacity
    match rec.meshes t with
    | some oldMesh =>
        let newMesh : InstMesh :=
          { buffer :=
              (List.range (rec.counts t)).foldl
                (fun buf i => buf.set i (oldMesh.buffer.getD i ⟨0, 0, 0⟩))
                newMesh0.buffer
            count := rec.counts t }
        { rec with
          meshes := tset rec.meshes t (some newMesh)
          capacities := tset rec.capacities t newCapacity }
    | none =>
        { rec with
          meshes := tset rec.meshes t (some newMesh0)
          capacities := tset rec.capacities t newCapacity }

/-- `setInstanceAt(record, type, idx, x, y, z)`: write the translation
transform at slot `idx`. -/
def setInstanceAt (rec : ChunkRecord) (t : BlockType) (idx : ℕ)
    (x y z : ℚ) : ChunkRecord :=
  meshSetMatrixAt rec t idx ⟨x, y, z⟩

/-- The occupancy map obtained by folding `occupancy.set(getCellKey(e), e.type)`
over a chunk-data array (the first loop of `buildChunkFromArray`). -/
def occOfList (arr : List CellEntry) : Cell → Option BlockType :=
  arr.foldl (fun occ e => mset occ (entryCell e) e.ty) fun _ => none

/-- The body of the `forEach` in `buildChunkFromArray`: place entry `p.2` at
slot `p.1` (write the transform, the cell→index map and the index→cell
array). -/
def fillStep (t : BlockType) (r : ChunkRecord) (p : ℕ × CellEntry) :
    ChunkRecord :=
  let ck := entryCell p.2
  let r1 := setInstanceAt r t p.1 p.2.x p.2.y p.2.z
  { r1 with
    indexMaps := tset r1.indexMaps t (mset (r1.indexMaps t) ck p.1)
    cellsByIndex :=
      tset r1.cellsByIndex t (jsArraySet (r1.cellsByIndex t) p.1 ck (0, 0, 0)) }

/-- The `if (greens.length) { … }` block of `buildChunkFromArray` for one
material: grow to fit, insert every entry at its position index, then set the
active count and the mesh draw count. -/
def fillType (rec : ChunkRecord) (t : BlockType) (es : List CellEntry) :
    ChunkRecord :=
  if es.isEmpty then rec
  else
    let rec1 := ensureCapacityForType rec t es.length
    let rec2 := es.enum.foldl (fillStep t) rec1
    let rec3 := { rec2 with counts := tset rec2.counts t es.length }
    meshSetCount rec3 t es.length

/-- The chunk record built by `buildChunkFromArray` from a chunk-data array:
occupancy from all entries, then the green partition, then the brown
partition (the source splits `arr` into `greens`/`browns` in one
order-preserving pass). -/
def mkRecFromArray (arr : List CellEntry) : ChunkRecord :=
  let rec1 := { makeEmptyChunkRecord with occupancy := occOfList arr }
  let greens := arr.filter fun e => e.ty = BlockType.green
  let browns := arr.filter fun e => e.ty = BlockType.brown
  fillType (fillType rec1 BlockType.green greens) BlockType.brown browns

/-- The whole mutable world state: the resident-chunk map `chunks` and the
persistent per-chunk data cache `chunkData`. -/
structure GameState where
  chunks : ChunkKey → Option ChunkRecord
  chunkData : ChunkKey → Option (List CellEntry)

/-- The state at script start: both maps empty. -/
def emptyState : GameState :=
  ⟨fun _ => none, fun _ => none⟩

/-- `buildChunkFromArray(key, arr)`: build the record and register it in
`chunks` (adding meshes to the scene is render-graph-only). -/
def buildChunkFromArray (s : GameState) (key : ChunkKey)
    (arr : List CellEntry) : GameState :=
  { s with chunks := mset s.chunks key (mkRecFromArray arr) }

/-- `generateGroundArrayForChunk(cx, cz)`: for each of the 16×16 footprint
columns, three stacked `green` cells at `y = 0, 1, 2`, all coordinates at the
cell centers (`+ 0.5`). -/
def generateGroundArrayForChunk (cx cz : ℤ) : List CellEntry :=
  (List.range CHUNK_SIZE).flatMap fun x =>
    (List.range CHUNK_SIZE).flatMap fun z =>
      let worldX : ℚ := cx * (CHUNK_SIZE : ℚ) + x + 1 / 2
      let worldZ : ℚ := cz * (CHUNK_SIZE : ℚ) + z + 1 / 2
      (List.range 3).map fun (y : ℕ) => ⟨worldX, (y : ℚ) + 1 / 2, worldZ, .green⟩

/-- `addBlockAt(x, y, z, type)`: no-op when the chunk is not resident or the
cell is occupied; otherwise update occupancy, append `[x, y, z, type]` to the
chunk-data array (creating it if absent), grow the mesh if needed and write
the new instance at slot `counts[type]`, updating both correspondence
directions, the count and the mesh draw count.  The JS function returns
`undefined` on every path. -/
def addBlockAt (s : GameState) (x y z : ℚ) (t : BlockType) : GameState :=
  let key := getChunkKey x y z
  match s.chunks key with
  | none => s
  | some rec =>
    let ck := getCellKey x y z
    match rec.occupancy ck with
    | some _ => s
    | none =>
      let rec1 := { rec with occupancy := mset rec.occupancy ck t }
      let arr := (s.chunkData key).getD []
      let data1 := mset s.chunkData key (arr ++ [⟨x, y, z, t⟩])
      let rec2 := ensureCapacityForType rec1 t (rec1.counts t + 1)
      let idx := rec2.counts t
      let rec3 := setInstanceAt rec2 t idx x y z
      let rec4 :=
        { rec3 with
          cellsByIndex :=
            tset rec3.cellsByIndex t
              (jsArraySet (rec3.cellsByIndex t) idx ck (0, 0, 0))
          indexMaps := tset rec3.indexMaps t (mset (rec3.indexMaps t) ck idx)
          counts := tset rec3.counts t (rec3.counts t + 1) }
      let rec5 := meshSetCount rec4 t (rec4.counts t)
      { s with chunks := mset s.chunks key rec5, chunkData := data1 }

/-- `removeBlockAt(x, y, z)`: no-op when the chunk is not resident or the cell
is unoccupied; otherwise swap-remove from the mesh (copying the last
instance's transform and cell into the vacated slot unless it is the last),
shrink count / draw count / index array, delete the cell from both maps, and
filter the exact coordinates out of the chunk-data array.  The source reads
`indexMaps[type].get(ck)` unchecked; under the record invariant the key is
always present, and the model defaults the impossible lookup to `0`.  The JS
function returns `undefined` on every path. -/
def removeBlockAt (s : GameState) (x y z : ℚ) : GameState :=
  let key := getChunkKey x y z
  match s.chunks key with
  | none => s
  | some rec =>
    let ck := getCellKey x y z
    match rec.occupancy ck with
    | none => s
    | some t =>
      let idx := (rec.indexMaps t ck).getD 0
      let last := rec.counts t - 1
      let rec1 :=
        if idx = last then rec
        else
          let lastCell := (rec.cellsByIndex t).getD last (0, 0, 0)
          let r := meshSetMatrixAt rec t idx (meshGetMatrixAt rec t last)
          { r with
            cellsByIndex :=
              tset r.cellsByIndex t
                (jsArraySet (r.cellsByIndex t) idx lastCell (0, 0, 0))
            indexMaps := tset r.indexMaps t (mset (r.indexMaps t) lastCell idx) }
      let rec2 := { rec1 with counts := tset rec1.counts t last }
      let rec3 := meshSetCount rec2 t last
      let rec4 :=
        { rec3 with
          indexMaps := tset rec3.indexMaps t (mdel (rec3.indexMaps t) ck)
          cellsByIndex := tset rec3.cellsByIndex t ((rec3.cellsByIndex t).take last)
          occupancy := mdel rec3.occupancy ck }
      let data1 :=
        match s.chunkData key with
        | none => s.chunkData
        | some arr =>
            mset s.chunkData key
              (arr.filter fun c => ¬(c.x = x ∧ c.y = y ∧ c.z = z))
      { s with chunks := mset s.chunks key rec4, chunkData := data1 }

/-- The record built by the successful path of `removeBlockAt` (its `rec4`),
extracted as a function of the record, the material found in the occupancy,
the cell key and the slot index retrieved from `indexMaps[type]`; the body is
the body of `removeBlockAt` verbatim. -/
def removeResultRecord (rec : ChunkRecord) (t : BlockType) (ck : Cell)
    (idx : ℕ) : ChunkRecord :=
  let last := rec.counts t - 1
  let rec1 :=
    if idx = last then rec
    else
      let lastCell := (rec.cellsByIndex t).getD last (0, 0, 0)
      let r := meshSetMatrixAt rec t idx (meshGetMatrixAt rec t last)
      { r with
        cellsByIndex :=
          tset r.cellsByIndex t
            (jsArraySet (r.cellsByIndex t) idx lastCell (0, 0, 0))
        indexMaps := tset r.indexMaps t (mset (r.indexMaps t) lastCell idx) }
  let rec2 := { rec1 with counts := tset rec1.counts t last }
  let rec3 := meshSetCount rec2 t last
  { rec3 with
    indexMaps := tset rec3.indexMaps t (mdel (rec3.indexMaps t) ck)
    cellsByIndex := tset rec3.cellsByIndex t ((rec3.cellsByIndex t).take last)
    occupancy := mdel rec3.occupancy ck }

/-- The value a JS call of `addBlockAt` evaluates to, paired with the state:
the function is `void`, so every path returns `undefined` (modelled `()`). -/
def addBlockAtRet (s : GameState) (x y z : ℚ) (t : BlockType) :
    GameState × Unit :=
  (addBlockAt s x y z t, ())

/-- The value a JS call of `removeBlockAt` evaluates to, paired with the
state: `undefined` on every path. -/
def removeBlockAtRet (s : GameState) (x y z : ℚ) : GameState × Unit :=
  (removeBlockAt s x y z, ())

/-- `loadOrGenerateChunk(cx, cz)`: no-op when the chunk is resident; build
from the cached array when one exists; otherwise generate, cache a copy and
build (the `.slice()` copy is identity under value semantics). -/
def loadOrGenerateChunk (s : GameState) (cx cz : ℤ) : GameState :=
  let key := getChunkKeyFromCoords cx 0 cz
  match s.chunks key with
  | some _ => s
  | none =>
    match s.chunkData key with
    | some arr => buildChunkFromArray s key arr
    | none =>
      let arr := generateGroundArrayForChunk cx cz
      buildChunkFromArray { s with chunkData := mset s.chunkData key arr } key arr

/-- `unloadChunk(key)`: drop the record (scene detach is render-graph-only);
the chunk-data cache entry is left untouched. -/
def unloadChunk (s : GameState) (key : ChunkKey) : GameState :=
  match s.chunks key with
  | none => s
  | some _ => { s with chunks := mdel s.chunks key }

/-- The `(dx, dz)` offsets visited by the nested
`for (dx = -RENDER_DISTANCE; dx <= RENDER_DISTANCE; …)` loops. -/
def renderOffsets : List (ℤ × ℤ) :=
  ((List.range 5).map fun (a : ℕ) => (a : ℤ) - 2).flatMap fun dx =>
    ((List.range 5).map fun (b : ℕ) => (b : ℤ) - 2).map fun dz => (dx, dz)

/-- The desired-resident key set built by `updateChunks` (`active`). -/
def activeKeys (px pz : ℤ) : List ChunkKey :=
  renderOffsets.map fun d => getChunkKeyFromCoords (px + d.1) 0 (pz + d.2)

/-- `updateChunks()`: load every chunk in the radius-`RENDER_DISTANCE`
square around the viewer's chunk, then unload every resident chunk whose key
is not in that set.  The source interleaves building `active` with the load
calls; loads never read `active`, so the two phases commute and are modelled
in sequence.  The final unload sweep over the `chunks` map restricts it to
`active`. -/
def updateChunks (s : GameState) (camX camZ : ℚ) : GameState :=
  let px := ⌊camX / (CHUNK_SIZE : ℚ)⌋
  let pz := ⌊camZ / (CHUNK_SIZE : ℚ)⌋
  let s1 := renderOffsets.foldl
    (fun acc d => loadOrGenerateChunk acc (px + d.1) (pz + d.2)) s
  { s1 with
    chunks := fun k => if k ∈ activeKeys px pz then s1.chunks k else none }

/-- A cell-granularity edit: the spec's `addCell` / `removeCell`.  The engine
always calls `addBlockAt` / `removeBlockAt` with grid-snapped coordinates
(`snapToGrid`, instance centers), i.e. with the center point of the target
cell. -/
inductive Edit
  | add (c : Cell) (t : BlockType)
  | remove (c : Cell)

/-- Run one edit against the state. -/
def applyEdit (s : GameState) : Edit → GameState
  | .add c t => addBlockAt s ((c.1 : ℚ) + 1 / 2) ((c.2.1 : ℚ) + 1 / 2)
      ((c.2.2 : ℚ) + 1 / 2) t
  | .remove c => removeBlockAt s ((c.1 : ℚ) + 1 / 2) ((c.2.1 : ℚ) + 1 / 2)
      ((c.2.2 : ℚ) + 1 / 2)

/-- Run a sequence of edits. -/
def applyEdits (s : GameState) (es : List Edit) : GameState :=
  es.foldl applyEdit s

/-! ### Collision geometry

The collision pass (`capsuleIntersectCorrection` / `resolveCollisions`) does
real geometry — distances through `Math.sqrt` — so it is modelled over `ℝ`.
`THREE.Vector3`, `THREE.Box3` and the capsule from `three/examples` are
translated field by field. -/

/-- A `THREE.Vector3`. -/
structure V3 where
  x : ℝ
  y : ℝ
  z : ℝ

/-- `a.add(b)` (value semantics). -/
noncomputable def addV (a b : V3) : V3 := ⟨a.x + b.x, a.y + b.y, a.z + b.z⟩

/-- `a.sub(b)`. -/
noncomputable def subV (a b : V3) : V3 := ⟨a.x - b.x, a.y - b.y, a.z - b.z⟩

/-- `v.multiplyScalar(k)`. -/
noncomputable def scaleV (k : ℝ) (v : V3) : V3 := ⟨k * v.x, k * v.y, k * v.z⟩

/-- `a.dot(b)`. -/
noncomputable def dotV (a b : V3) : ℝ := a.x * b.x + a.y * b.y + a.z * b.z

/-- `v.length()`. -/
noncomputable def lengthV (v : V3) : ℝ :=
  Real.sqrt (v.x ^ 2 + v.y ^ 2 + v.z ^ 2)

/-- `a.distanceTo(b)`. -/
noncomputable def distV (a b : V3) : ℝ := lengthV (subV a b)

/-- `v.normalize()`, which is `v.divideScalar(v.length() || 1)`: the zero
vector (length `0`) is divided by `1` and stays the zero vector — this is how
three.js avoids producing NaN here. -/
noncomputable def normalizeV (v : V3) : V3 :=
  scaleV (1 / (if lengthV v = 0 then 1 else lengthV v)) v

/-- A `THREE.Box3` (axis-aligned, corners `min` / `max`; those field names
are kept as `bmin` / `bmax`). -/
structure Box3V where
  bmin : V3
  bmax : V3

/-- `box.clampPoint(p)`: per-axis `max(min.c, min(max.c, p.c))`. -/
noncomputable def clampPointV (b : Box3V) (p : V3) : V3 :=
  ⟨max b.bmin.x (min b.bmax.x p.x),
   max b.bmin.y (min b.bmax.y p.y),
   max b.bmin.z (min b.bmax.z p.z)⟩

/-- The player capsule (`Capsule` from three/examples): segment endpoints and
a radius.  `end` is a reserved word in Lean, hence `endP`. -/
structure CapsuleV where
  start : V3
  endP : V3
  radius : ℝ

/-- `capsule.translate(v)`: translate both endpoints. -/
noncomputable def translateCapsule (c : CapsuleV) (v : V3) : CapsuleV :=
  ⟨addV c.start v, addV c.endP v, c.radius⟩

/-- The capsule's center segment vector (`tmpVec2` before normalization). -/
noncomputable def segV (c : CapsuleV) : V3 := subV c.endP c.start

/-- Sample `i` of the loop in `capsuleIntersectCorrection`
(`dir * ((i / steps) * segLen) + start`, `steps = 5`). -/
noncomputable def sampleAt (c : CapsuleV) (i : ℕ) : V3 :=
  addV (scaleV ((i : ℝ) / 5 * lengthV (segV c)) (normalizeV (segV c))) c.start

/-- The closest point of the box to sample `i` (`box.clampPoint`). -/
noncomputable def closestAt (c : CapsuleV) (b : Box3V) (i : ℕ) : V3 :=
  clampPointV b (sampleAt c i)

/-- `dist` at sample `i`: `tmpClosest.distanceTo(tmpVec)`. -/
noncomputable def distAt (c : CapsuleV) (b : Box3V) (i : ℕ) : ℝ :=
  distV (closestAt c b i) (sampleAt c i)

/-- The record `{ correction, normal }` returned on a hit. -/
structure CorrectionResult where
  correction : V3
  normal : V3

/-- The hit result at sample `i`:
`pushDir = sample.clone().sub(closest).normalize()` followed by
`{ correction: pushDir.multiplyScalar(radius - dist), normal: pushDir }`.
`multiplyScalar` mutates `pushDir` in place, so `normal` aliases the already
scaled vector: both fields hold `(radius - dist) * unit`. -/
noncomputable def hitResultAt (c : CapsuleV) (b : Box3V) (i : ℕ) :
    CorrectionResult :=
  let pushScaled :=
    scaleV (c.radius - distAt c b i)
      (normalizeV (subV (sampleAt c i) (closestAt c b i)))
  ⟨pushScaled, pushScaled⟩

/-- `capsuleIntersectCorrection(capsule, box)`: walk the `6` samples in order
and return the hit result of the first sample strictly within `radius` of the
box, or `null`. -/
noncomputable def capsuleIntersectCorrection (c : CapsuleV) (b : Box3V) :
    Option CorrectionResult :=
  (List.range 6).findSome? fun i =>
    if distAt c b i < c.radius then some (hitResultAt c b i) else none

/-- The unit cube of a cell as built in `resolveCollisions`:
`setFromCenterAndSize(center = cell + 0.5, size = (1,1,1))`, i.e. corners at
the integer lattice. -/
noncomputable def boxForCell (c : Cell) : Box3V :=
  let center : V3 := ⟨(c.1 : ℝ) + 1 / 2, (c.2.1 : ℝ) + 1 / 2, (c.2.2 : ℝ) + 1 / 2⟩
  ⟨subV center ⟨1 / 2, 1 / 2, 1 / 2⟩, addV center ⟨1 / 2, 1 / 2, 1 / 2⟩⟩

/-- The body of `resolveCollisions` for one occupied cell: intersect, and on a
hit translate the capsule by `result.correction` and update the velocity by
`vel.sub(result.normal.clone().multiplyScalar(vel.dot(result.normal)))`.
The surrounding triple loop folds this step over every occupied cell of the
expanded bounding box (each cell visited once). -/
noncomputable def collideCellStep (cap : CapsuleV) (vel : V3) (c : Cell) :
    CapsuleV × V3 :=
  match capsuleIntersectCorrection cap (boxForCell c) with
  | none => (cap, vel)
  | some r =>
      (translateCapsule cap r.correction,
       subV vel (scaleV (dotV vel r.normal) r.normal))

/-- The push-out record as claim C3 words it, for comparison with
`hitResultAt`: direction *from the sample to the closest point* (normalized),
magnitude `radius - dist`, and the normal is that unit push direction (so
`velocity -= normal * (velocity . normal)` removes the whole component). -/
noncomputable def claimedHitResultAt (c : CapsuleV) (b : Box3V) (i : ℕ) :
    CorrectionResult :=
  let pushDir := normalizeV (subV (closestAt c b i) (sampleAt c i))
  ⟨scaleV (c.radius - distAt c b i) pushDir, pushDir⟩

/-- A degenerate (point) capsule at `(0.8, 0.5, 0.5)` with radius `0.35`: it
overlaps the `x = 1` face of the unit cube of cell `(1, 0, 0)` with closest
point `(1, 0.5, 0.5)` at distance `0.2`. -/
noncomputable def cexCap : CapsuleV :=
  ⟨⟨4 / 5, 1 / 2, 1 / 2⟩, ⟨4 / 5, 1 / 2, 1 / 2⟩, 7 / 20⟩

/-- A degenerate (point) capsule at the center of the unit cube of cell
`(0, 0, 0)`: its sample coincides with its clamped closest point, so the
sample-to-closest distance is `0`. -/
noncomputable def insideCap : CapsuleV :=
  ⟨⟨1 / 2, 1 / 2, 1 / 2⟩, ⟨1 / 2, 1 / 2, 1 / 2⟩, 7 / 20⟩

/-! ## Invariants -/

/-- Every resident chunk key has y-coordinate `0`: `updateChunks` (the only
creator of chunk records) always loads keys `(cx, 0, cz)`. -/
def OnlyY0 (s : GameState) : Prop :=
  ∀ k rec, s.chunks k = some rec → k.2.1 = 0

/-- The chunk key computed by the edit functions for the center point of a
cell. -/
def chunkOfCell (c : Cell) : ChunkKey :=
  getChunkKey ((c.1 : ℚ) + 1 / 2) ((c.2.1 : ℚ) + 1 / 2) ((c.2.2 : ℚ) + 1 / 2)

/-- A chunk-data entry lies exactly at the center of its cell — the shape
every entry produced by the generator or by a snapped edit has. -/
def entrySnapped (e : CellEntry) : Prop :=
  e.x = ((entryCell e).1 : ℚ) + 1 / 2 ∧
  e.y = ((entryCell e).2.1 : ℚ) + 1 / 2 ∧
  e.z = ((entryCell e).2.2 : ℚ) + 1 / 2

/-- Well-formedness of a chunk-data array for chunk `k`: every entry is
cell-centered and belongs to chunk `k`, and no two entries share a cell. -/
def DataWF (k : ChunkKey) (arr : List CellEntry) : Prop :=
  (∀ e ∈ arr, entrySnapped e ∧ getChunkKey e.x e.y e.z = k) ∧
  (arr.map entryCell).Nodup

/-- The batch density invariant of one Instance Batch (spec §3/§8): the index
array covers exactly `[0, counts)`, the two correspondence directions agree,
occupancy with material `t` coincides with membership in the index map, the
mesh (when present) has `capacities` slots and draws exactly `counts`, and
every active slot stores the center transform of its cell. -/
structure BatchWF (rec : ChunkRecord) (t : BlockType) : Prop where
  len : (rec.cellsByIndex t).length = rec.counts t
  idx_cell : ∀ (c : Cell) (i : ℕ), rec.indexMaps t c = some i →
    (rec.cellsByIndex t)[i]? = some c
  cell_idx : ∀ (i : ℕ) (c : Cell), (rec.cellsByIndex t)[i]? = some c →
    rec.indexMaps t c = some i
  occ_idx : ∀ c : Cell, rec.occupancy c = some t ↔ (rec.indexMaps t c).isSome
  count_le : rec.counts t ≤ rec.capacities t
  mesh_none : rec.meshes t = none → rec.capacities t = 0
  mesh_some : ∀ m : InstMesh, rec.meshes t = some m →
    m.buffer.length = rec.capacities t ∧ m.count = rec.counts t
  transform : ∀ (i : ℕ) (c : Cell), (rec.cellsByIndex t)[i]? = some c →
    ∃ m : InstMesh, rec.meshes t = some m ∧ m.buffer[i]? = some (posCenter c)

/-- Both batches of a record are well-formed. -/
def RecordWF (rec : ChunkRecord) : Prop := ∀ t, BatchWF rec t

/-- Per-key state invariant: a resident chunk sits at a y-0 key, its record
is well-formed, and its occupancy is exactly the occupancy determined by its
chunk-data cache entry (which exists). -/
def ChunkInv (s : GameState) (k : ChunkKey) : Prop :=
  ∀ rec, s.chunks k = some rec →
    k.2.1 = 0 ∧ RecordWF rec ∧
    ∃ arr, s.chunkData k = some arr ∧ rec.occupancy = occOfList arr

/-- Whole-state invariant: every chunk satisfies `ChunkInv` and every cached
array is well-formed for its key.  It holds for the empty state and is
preserved by loading, unloading, streaming and cell-centered edits. -/
def StateInv (s : GameState) : Prop :=
  (∀ k, ChunkInv s k) ∧ ∀ k arr, s.chunkData k = some arr → DataWF k arr

/-! ## Concrete fixtures used by witnesses and counterexamples -/

/-- A state with one resident, completely empty chunk at key `(0, 0, 0)` and
no chunk-data entry (the shape `addBlockAt`'s defensive
`if (!chunkData.has(key))` branch expects). -/
def emptyChunkState : GameState := buildChunkFromArray emptyState (0, 0, 0) []

/-- A one-entry chunk-data array: a single ground block at cell
`(0, 0, 0)`. -/
def oneBlockArr : List CellEntry := [⟨1 / 2, 1 / 2, 1 / 2, .green⟩]

/-- A state whose chunk-data cache holds `oneBlockArr` for chunk `(0, 0, 0)`
and with no resident chunk. -/
def oneBlockBase : GameState :=
  { emptyState with
    chunkData := mset emptyState.chunkData (0, 0, 0) oneBlockArr }

/-- `oneBlockBase` after loading chunk `(0, 0, 0)` from the cache: one
resident chunk holding exactly one green block. -/
def oneBlockState : GameState := loadOrGenerateChunk oneBlockBase 0 0

/-- A record holding two active green instances in a capacity-2 mesh. -/
def sampleGrowRecord : ChunkRecord :=
  { makeEmptyChunkRecord with
    meshes := tset makeEmptyChunkRecord.meshes .green (some ⟨[⟨1, 2, 3⟩, ⟨4, 5, 6⟩], 2⟩)
    counts := tset makeEmptyChunkRecord.counts .green 2
    capacities := tset makeEmptyChunkRecord.capacities .green 2 }

/-! ## Arithmetic helpers -/

theorem floor_int_add_half (a : ℤ) : ⌊(a : ℚ) + 1 / 2⌋ = a := by
  rw [Int.floor_int_add]
  norm_num

theorem floor_mul16_add (q : ℤ) (r : ℚ) (h0 : 0 ≤ r) (h1 : r < 16) :
    ⌊((q : ℚ) * 16 + r) / 16⌋ = q := by
  have hrw : ((q : ℚ) * 16 + r) / 16 = (q : ℚ) + r / 16 := by ring
  have hz : ⌊r / 16⌋ = 0 := by
    rw [Int.floor_eq_zero_iff]
    constructor
    · positivity
    · rw [div_lt_one (by norm_num : (0 : ℚ) < 16)]
      exact h1
  rw [hrw, Int.floor_int_add, hz, add_zero]

theorem chunkSize_cast : ((CHUNK_SIZE : ℕ) : ℚ) = 16 := by
  norm_num [CHUNK_SIZE]

theorem getCellKey_center (c : Cell) :
    getCellKey ((c.1 : ℚ) + 1 / 2) ((c.2.1 : ℚ) + 1 / 2) ((c.2.2 : ℚ) + 1 / 2)
      = c := by
  unfold getCellKey
  rw [floor_int_add_half, floor_int_add_half, floor_int_add_half]

/-! ## The procedural generator (claim C6) -/

theorem entryCell_generated (cx cz : ℤ) (x z y : ℕ) (hx : x < 16)
    (hz : z < 16) (hy : y < 3) :
    entryCell ⟨(cx : ℚ) * 16 + x + 1 / 2, (y : ℚ) + 1 / 2,
        (cz : ℚ) * 16 + z + 1 / 2, .green⟩
      = (cx * 16 + x, (y : ℤ), cz * 16 + z) := by
  unfold entryCell getCellKey
  refine Prod.ext ?_ (Prod.ext ?_ ?_)
  · show ⌊(cx : ℚ) * 16 + x + 1 / 2⌋ = cx * 16 + x
    have h : (cx : ℚ) * 16 + x + 1 / 2 = ((cx * 16 + x : ℤ) : ℚ) + 1 / 2 := by
      push_cast; ring
    rw [h, floor_int_add_half]
  · show ⌊(y : ℚ) + 1 / 2⌋ = (y : ℤ)
    have h : (y : ℚ) + 1 / 2 = ((y : ℤ) : ℚ) + 1 / 2 := by push_cast; ring
    rw [h, floor_int_add_half]
  · show ⌊(cz : ℚ) * 16 + z + 1 / 2⌋ = cz * 16 + z
    have h : (cz : ℚ) * 16 + z + 1 / 2 = ((cz * 16 + z : ℤ) : ℚ) + 1 / 2 := by
      push_cast; ring
    rw [h, floor_int_add_half]

theorem generate_mem (cx cz : ℤ) (e : CellEntry) :
    e ∈ generateGroundArrayForChunk cx cz ↔
      ∃ x : ℕ, x < 16 ∧ ∃ z : ℕ, z < 16 ∧ ∃ y : ℕ, y < 3 ∧
        e = ⟨(cx : ℚ) * 16 + x + 1 / 2, (y : ℚ) + 1 / 2,
          (cz : ℚ) * 16 + z + 1 / 2, .green⟩ := by
  unfold generateGroundArrayForChunk
  simp only [List.mem_flatMap, List.mem_map, List.mem_range, chunkSize_cast]
  constructor
  · rintro ⟨x, hx, ⟨z, hz, ⟨y, hy, rfl⟩⟩⟩
    exact ⟨x, hx, z, hz, y, hy, rfl⟩
  · rintro ⟨x, hx, z, hz, y, hy, rfl⟩
    exact ⟨x, ⟨hx, ⟨z, hz, ⟨y, hy, rfl⟩⟩⟩⟩

theorem generate_length (cx cz : ℤ) :
    (generateGroundArrayForChunk cx cz).length = 768 := by
  unfold generateGroundArrayForChunk
  simp only [Function.comp_def, List.length_flatMap, List.map_map,
    List.length_map, List.length_range, List.map_const', List.sum_replicate,
    smul_eq_mul, CHUNK_SIZE]

theorem generate_cells_eq (cx cz : ℤ) :
    (generateGroundArrayForChunk cx cz).map entryCell
      = (List.range 16).flatMap fun x =>
          (List.range 16).flatMap fun z =>
            (List.range 3).map fun (y : ℕ) =>
              ((cx * 16 + (x : ℤ), (y : ℤ), cz * 16 + (z : ℤ)) : Cell) := by
  simp only [generateGroundArrayForChunk, CHUNK_SIZE, Nat.cast_ofNat]
  rw [List.map_flatMap]
  refine List.flatMap_congr fun x hx => ?_
  rw [List.map_flatMap]
  refine List.flatMap_congr fun z hz => ?_
  rw [List.map_map]
  refine List.map_congr_left fun y hy => ?_
  simp only [List.mem_range] at hx hz hy
  simpa using entryCell_generated cx cz x z y hx hz hy

theorem generate_cells_nodup (cx cz : ℤ) :
    ((generateGroundArrayForChunk cx cz).map entryCell).Nodup := by
  rw [generate_cells_eq, List.nodup_flatMap]
  refine ⟨fun x hx => ?_, ?_⟩
  · rw [List.nodup_flatMap]
    refine ⟨fun z hz => ?_, ?_⟩
    · refine (List.nodup_map_iff_inj_on (List.nodup_range 3)).mpr ?_
      intro y1 _ y2 _ h
      have h2 := congrArg (fun p : Cell => p.2.1) h
      simpa using h2
    · refine (List.pairwise_lt_range 16).imp ?_
      intro z1 z2 hlt a ha1 ha2
      simp only [List.mem_map, List.mem_range] at ha1 ha2
      obtain ⟨y1, _, rfl⟩ := ha1
      obtain ⟨y2, _, h⟩ := ha2
      have h3 := congrArg (fun p : Cell => p.2.2) h
      simp only at h3
      omega
  · refine (List.pairwise_lt_range 16).imp ?_
    intro x1 x2 hlt a ha1 ha2
    simp only [List.mem_flatMap, List.mem_map, List.mem_range] at ha1 ha2
    obtain ⟨z1, _, y1, _, rfl⟩ := ha1
    obtain ⟨z2, _, y2, _, h⟩ := ha2
    have h1 := congrArg (fun p : Cell => p.1) h
    simp only at h1
    omega

/-- Claim C6: for every chunk coordinate `(cx, cz)`,
`generateGroundArrayForChunk` returns exactly `16 * 16 * 3 = 768` entries, one
per `(x, z)` in the footprint and `y ∈ {0, 1, 2}` (pairwise distinct), all of
material ground (`green`), with centers
`(cx*16 + x + 0.5, y + 0.5, cz*16 + z + 0.5)`.  The function is a pure Lean
function of `(cx, cz)` alone, so determinism (same list on every call) is
inherent in the embedding. -/
theorem C6_generator_reference (cx cz : ℤ) :
    (generateGroundArrayForChunk cx cz).length = 768 ∧
    (∀ e, e ∈ generateGroundArrayForChunk cx cz ↔
      ∃ x : ℕ, x < 16 ∧ ∃ z : ℕ, z < 16 ∧ ∃ y : ℕ, y < 3 ∧
        e = ⟨(cx : ℚ) * 16 + x + 1 / 2, (y : ℚ) + 1 / 2,
          (cz : ℚ) * 16 + z + 1 / 2, .green⟩) ∧
    (generateGroundArrayForChunk cx cz).Nodup := by
  refine ⟨generate_length cx cz, fun e => generate_mem cx cz e, ?_⟩
  exact (generate_cells_nodup cx cz).of_map

/-! ## Small lemmas about the map/table helpers -/

theorem mset_self {α β : Type*} [DecidableEq α] (m : α → Option β) (k : α)
    (v : β) : mset m k v k = some v := by
  simp [mset]

theorem mset_other {α β : Type*} [DecidableEq α] (m : α → Option β) (k : α)
    (v : β) (q : α) (h : q ≠ k) : mset m k v q = m q := by
  simp [mset, h]

theorem mdel_self {α β : Type*} [DecidableEq α] (m : α → Option β) (k : α) :
    mdel m k k = none := by
  simp [mdel]

theorem mdel_other {α β : Type*} [DecidableEq α] (m : α → Option β) (k : α)
    (q : α) (h : q ≠ k) : mdel m k q = m q := by
  simp [mdel, h]

theorem tset_self {β : Type*} (f : BlockType → β) (t : BlockType) (v : β) :
    tset f t v t = v := by
  simp [tset]

theorem tset_other {β : Type*} (f : BlockType → β) (t : BlockType) (v : β)
    (q : BlockType) (h : q ≠ t) : tset f t v q = f q := by
  simp [tset, h]

/-! ## Capacity growth (claim C5) -/

theorem foldlSet_length (g : ℕ → Pos) (n : ℕ) (buf : List Pos) :
    ((List.range n).foldl (fun b i => b.set i (g i)) buf).length
      = buf.length := by
  induction n with
  | zero => simp
  | succ n ih => rw [List.range_succ, List.foldl_append]; simp [ih]

theorem foldlSet_getElem (g : ℕ → Pos) (n : ℕ) (buf : List Pos) (j : ℕ) :
    ((List.range n).foldl (fun b i => b.set i (g i)) buf)[j]?
      = if j < n ∧ j < buf.length then some (g j) else buf[j]? := by
  induction n with
  | zero => simp
  | succ n ih =>
    rw [List.range_succ, List.foldl_append]
    simp only [List.foldl_cons, List.foldl_nil]
    rw [List.getElem?_set, foldlSet_length]
    by_cases hj : n = j
    · subst hj
      by_cases hlen : n < buf.length
      · simp [hlen]
      · rw [if_pos rfl, if_neg hlen, if_neg (by omega), List.getElem?_eq_none (by omega)]
    · rw [if_neg hj, ih]
      by_cases h1 : j < n ∧ j < buf.length
      · rw [if_pos h1, if_pos ⟨by omega, h1.2⟩]
      · rw [if_neg h1, if_neg (by omega)]

/-- Claim C5: when `needed` exceeds the capacity, `ensureCapacityForType`
allocates a store of size `max(needed, max(8, 2 * capacity))`, copies all
`counts[type]` transforms unchanged at their original indices (whenever a mesh
exists; a type without a mesh has no transforms to copy), and installs the new
mesh in place of the old; when `needed` fits, the record is returned
unchanged. -/
theorem C5_capacity_growth (rec : ChunkRecord) (t : BlockType) (needed : ℕ)
    (hcount : rec.counts t ≤ rec.capacities t) :
    (rec.capacities t < needed →
      (ensureCapacityForType rec t needed).capacities t
          = max needed (max 8 (rec.capacities t * 2)) ∧
      ∀ m, rec.meshes t = some m → m.buffer.length = rec.capacities t →
        ∃ m2, (ensureCapacityForType rec t needed).meshes t = some m2 ∧
          m2.buffer.length = max needed (max 8 (rec.capacities t * 2)) ∧
          m2.count = rec.counts t ∧
          ∀ i, i < rec.counts t → m2.buffer[i]? = m.buffer[i]?) ∧
    (needed ≤ rec.capacities t → ensureCapacityForType rec t needed = rec) := by
  constructor
  · intro hlt
    have hif : ¬ needed ≤ rec.capacities t := by omega
    constructor
    · unfold ensureCapacityForType
      rw [if_neg hif]
      cases hm : rec.meshes t <;> simp [tset_self]
    · intro m hm hlen
      unfold ensureCapacityForType
      rw [if_neg hif, hm]
      refine ⟨_, tset_self _ _ _, ?_, rfl, ?_⟩
      · simp [foldlSet_length, createInstancedMesh]
      · intro i hi
        rw [foldlSet_getElem]
        have hi2 : i < (createInstancedMesh
            (max needed (max 8 (rec.capacities t * 2)))).buffer.length := by
          simp [createInstancedMesh]; omega
        rw [if_pos ⟨hi, hi2⟩]
        have hib : i < m.buffer.length := by omega
        rw [List.getD_eq_getElem m.buffer _ hib, List.getElem?_eq_getElem hib]
  · intro hle
    unfold ensureCapacityForType
    rw [if_pos hle]

/-- Witness for C5 at a concrete two-instance record grown from capacity 2 to
`max 3 (max 8 4) = 8`. -/
theorem C5_capacity_growth_witness :
    sampleGrowRecord.counts .green ≤ sampleGrowRecord.capacities .green ∧
    sampleGrowRecord.capacities .green < 3 ∧
    (ensureCapacityForType sampleGrowRecord .green 3).capacities .green = 8 ∧
    ∃ m2, (ensureCapacityForType sampleGrowRecord .green 3).meshes .green
        = some m2 ∧
      m2.buffer.length = 8 ∧ m2.count = 2 ∧
      m2.buffer[0]? = some ⟨1, 2, 3⟩ ∧ m2.buffer[1]? = some ⟨4, 5, 6⟩ := by
  obtain ⟨hgrow, _⟩ := C5_capacity_growth sampleGrowRecord .green 3 (by decide)
  obtain ⟨hcap, hcopy⟩ := hgrow (by decide)
  obtain ⟨m2, hm2, hlen, hcnt, hget⟩ :=
    hcopy ⟨[⟨1, 2, 3⟩, ⟨4, 5, 6⟩], 2⟩ rfl rfl
  refine ⟨by decide, by decide, by rw [hcap]; decide, m2, hm2,
    by rw [hlen]; decide, hcnt, ?_, ?_⟩
  · rw [hget 0 (by decide)]; decide
  · rw [hget 1 (by decide)]; decide

/-! ## Edit no-ops (claim C7) -/

/-- Claim C7 (amended): `addBlockAt` on a non-resident chunk or an occupied
cell, and `removeBlockAt` on a non-resident chunk or an unoccupied cell, are
total no-ops: the entire state (chunks, batches, counts, correspondences and
the chunk-data cache) is returned unchanged, and — both functions being total
Lean functions — no exception can be raised.  The JS functions are `void`, so
the "failure indicator" of the original claim does not exist: see the
counterexample, which exhibits a failing and a succeeding call with identical
return values. -/
theorem C7_edit_noop (s : GameState) (x y z : ℚ) (t : BlockType) :
    (s.chunks (getChunkKey x y z) = none →
      addBlockAt s x y z t = s ∧ removeBlockAt s x y z = s) ∧
    ∀ rec, s.chunks (getChunkKey x y z) = some rec →
      ((rec.occupancy (getCellKey x y z)).isSome → addBlockAt s x y z t = s) ∧
      (rec.occupancy (getCellKey x y z) = none → removeBlockAt s x y z = s) := by
  constructor
  · intro h
    constructor
    · simp only [addBlockAt, h]
    · simp only [removeBlockAt, h]
  · intro rec h
    constructor
    · intro hocc
      obtain ⟨v, hv⟩ := Option.isSome_iff_exists.mp hocc
      simp only [addBlockAt, h, hv]
    · intro hocc
      simp only [removeBlockAt, h, hocc]

/-- Witness for C7: both edits against the empty state (no resident chunk)
are no-ops. -/
theorem C7_edit_noop_witness :
    emptyState.chunks (getChunkKey (1 / 2) (1 / 2) (1 / 2)) = none ∧
    addBlockAt emptyState (1 / 2) (1 / 2) (1 / 2) .brown = emptyState ∧
    removeBlockAt emptyState (1 / 2) (1 / 2) (1 / 2) = emptyState := by
  have h := (C7_edit_noop emptyState (1 / 2) (1 / 2) (1 / 2) .brown).1 rfl
  exact ⟨rfl, h.1, h.2⟩

/-- Counterexample for C7 as stated: a failing `addBlockAt` (non-resident
chunk) and a succeeding one return the same value `undefined` — the
return value carries no failure indicator.  The two calls are distinguished
only through the state: the succeeding one appends to the chunk-data cache,
the failing one leaves it empty. -/
theorem C7_indicator_counterexample :
    (addBlockAtRet emptyChunkState (1 / 2) (1 / 2) (1 / 2) .brown).2
        = (addBlockAtRet emptyState (1 / 2) (1 / 2) (1 / 2) .brown).2 ∧
    (addBlockAt emptyChunkState (1 / 2) (1 / 2) (1 / 2) .brown).chunkData
        ((0 : ℤ), (0 : ℤ), (0 : ℤ))
      = some [⟨1 / 2, 1 / 2, 1 / 2, .brown⟩] ∧
    (addBlockAt emptyState (1 / 2) (1 / 2) (1 / 2) .brown).chunkData
        ((0 : ℤ), (0 : ℤ), (0 : ℤ)) = none := by
  have hck : getChunkKey (1 / 2 : ℚ) (1 / 2) (1 / 2) = ((0 : ℤ), 0, 0) := by
    simp only [getChunkKey, chunkSize_cast]
    norm_num
  have hrec : emptyChunkState.chunks ((0 : ℤ), 0, 0)
      = some (mkRecFromArray []) := rfl
  have hocc : (mkRecFromArray []).occupancy
      (getCellKey (1 / 2 : ℚ) (1 / 2) (1 / 2)) = none := rfl
  refine ⟨rfl, ?_, ?_⟩
  · simp only [addBlockAt, hck, hrec, hocc, emptyChunkState, buildChunkFromArray,
      emptyState, mset_self, Option.getD_none, List.nil_append]
  · simp only [addBlockAt, hck, emptyState]

/-! ## Vertical edit range (claim C9) -/

theorem floor_div16_eq_zero_iff (r : ℚ) : ⌊r / 16⌋ = 0 ↔ 0 ≤ r ∧ r < 16 := by
  rw [Int.floor_eq_zero_iff]
  simp only [Set.mem_Ico]
  constructor
  · rintro ⟨h1, h2⟩
    refine ⟨?_, ?_⟩
    · have h3 := (le_div_iff (by norm_num : (0 : ℚ) < 16)).mp h1
      linarith
    · exact (div_lt_one (by norm_num : (0 : ℚ) < 16)).mp h2
  · rintro ⟨h1, h2⟩
    exact ⟨by positivity, (div_lt_one (by norm_num : (0 : ℚ) < 16)).mpr h2⟩

/-- Claim C9: when `⌊y / CHUNK_SIZE⌋ ≠ 0`, both edits are unconditional
no-ops in every reachable state (every state whose resident chunk keys all
have y-coordinate `0`, which `updateChunks` guarantees — see the `OnlyY0`
preservation lemmas).  For a cell with integer y-coordinate `cy` (edit
coordinates are cell centers `cy + 1/2`), that condition is exactly
`cy < 0 ∨ 16 ≤ cy`: blocks can never be placed or removed at or above world
height 16 nor below 0. -/
theorem C9_vertical_edit_range (s : GameState) (x y z : ℚ) (t : BlockType)
    (h0 : OnlyY0 s) (hy : ⌊y / (CHUNK_SIZE : ℚ)⌋ ≠ 0) :
    addBlockAt s x y z t = s ∧ removeBlockAt s x y z = s ∧
    ∀ cy : ℤ, (⌊((cy : ℚ) + 1 / 2) / (CHUNK_SIZE : ℚ)⌋ ≠ 0 ↔
      cy < 0 ∨ 16 ≤ cy) := by
  have hk : s.chunks (getChunkKey x y z) = none := by
    cases hc : s.chunks (getChunkKey x y z) with
    | none => rfl
    | some rec =>
      exact absurd (h0 _ _ hc) (by simpa [getChunkKey] using hy)
  refine ⟨?_, ?_, ?_⟩
  · simp only [addBlockAt, hk]
  · simp only [removeBlockAt, hk]
  · intro cy
    have hfl : ⌊((cy : ℚ) + 1 / 2) / 16⌋ = 0 ↔ 0 ≤ cy ∧ cy < 16 := by
      rw [floor_div16_eq_zero_iff]
      constructor
      · rintro ⟨h1, h2⟩
        constructor
        · by_contra hneg
          push_neg at hneg
          have : (cy : ℚ) ≤ -1 := by exact_mod_cast (by omega : cy ≤ -1)
          linarith
        · by_contra hneg
          push_neg at hneg
          have : (16 : ℚ) ≤ (cy : ℚ) := by exact_mod_cast hneg
          linarith
      · rintro ⟨h1, h2⟩
        have hc1 : (0 : ℚ) ≤ (cy : ℚ) := by exact_mod_cast h1
        have hc2 : (cy : ℚ) ≤ 15 := by exact_mod_cast (by omega : cy ≤ 15)
        constructor <;> linarith
    rw [chunkSize_cast, ne_eq, hfl]
    omega

/-- Witness for C9: the empty state trivially satisfies `OnlyY0`, and
`y = 20` lies in a chunk with y-coordinate `⌊20/16⌋ = 1 ≠ 0`, so both edits
at height 20 are no-ops. -/
theorem C9_vertical_edit_range_witness :
    addBlockAt emptyState (1 / 2) 20 (1 / 2) .brown = emptyState ∧
    removeBlockAt emptyState (1 / 2) 20 (1 / 2) = emptyState := by
  have h := C9_vertical_edit_range emptyState (1 / 2) 20 (1 / 2) .brown
    (fun k rec hk => by simp [emptyState] at hk)
    (by rw [chunkSize_cast]; norm_num)
  exact ⟨h.1, h.2.1⟩

/-! ## Residency bookkeeping: which keys the operations can create -/

theorem addBlockAt_chunks_isSome (s : GameState) (x y z : ℚ) (t : BlockType)
    (k : ChunkKey) (h : ((addBlockAt s x y z t).chunks k).isSome) :
    (s.chunks k).isSome := by
  cases hc : s.chunks (getChunkKey x y z) with
  | none => simp only [addBlockAt, hc] at h; exact h
  | some rec =>
    cases ho : rec.occupancy (getCellKey x y z) with
    | some v => simp only [addBlockAt, hc, ho] at h; exact h
    | none =>
      simp only [addBlockAt, hc, ho] at h
      by_cases hk : k = getChunkKey x y z
      · rw [hk, hc]; rfl
      · simp only [mset, if_neg hk] at h
        exact h

theorem removeBlockAt_chunks_isSome (s : GameState) (x y z : ℚ)
    (k : ChunkKey) (h : ((removeBlockAt s x y z).chunks k).isSome) :
    (s.chunks k).isSome := by
  cases hc : s.chunks (getChunkKey x y z) with
  | none => simp only [removeBlockAt, hc] at h; exact h
  | some rec =>
    cases ho : rec.occupancy (getCellKey x y z) with
    | none => simp only [removeBlockAt, hc, ho] at h; exact h
    | some t =>
      simp only [removeBlockAt, hc, ho] at h
      by_cases hk : k = getChunkKey x y z
      · rw [hk, hc]; rfl
      · simp only [mset, if_neg hk] at h
        exact h

theorem loadOrGenerateChunk_untouched (s : GameState) (cx cz : ℤ)
    (k : ChunkKey) (hk : k ≠ (cx, 0, cz)) :
    (loadOrGenerateChunk s cx cz).chunks k = s.chunks k ∧
    (loadOrGenerateChunk s cx cz).chunkData k = s.chunkData k := by
  simp only [loadOrGenerateChunk, getChunkKeyFromCoords]
  cases hc : s.chunks (cx, 0, cz) with
  | some r => exact ⟨rfl, rfl⟩
  | none =>
    cases hd : s.chunkData (cx, 0, cz) with
    | some arr =>
      exact ⟨mset_other _ _ _ _ hk, rfl⟩
    | none =>
      exact ⟨mset_other _ _ _ _ hk, mset_other _ _ _ _ hk⟩

theorem loadOrGenerateChunk_resident (s : GameState) (cx cz : ℤ) :
    ((loadOrGenerateChunk s cx cz).chunks (cx, 0, cz)).isSome := by
  simp only [loadOrGenerateChunk, getChunkKeyFromCoords]
  cases hc : s.chunks (cx, 0, cz) with
  | some r => rw [hc]; rfl
  | none =>
    cases hd : s.chunkData (cx, 0, cz) with
    | some arr => simp [buildChunkFromArray, mset_self]
    | none => simp [buildChunkFromArray, mset_self]

theorem loadOrGenerateChunk_mono (s : GameState) (cx cz : ℤ) (k : ChunkKey)
    (h : (s.chunks k).isSome) :
    ((loadOrGenerateChunk s cx cz).chunks k).isSome := by
  by_cases hk : k = (cx, 0, cz)
  · rw [hk]; exact loadOrGenerateChunk_resident s cx cz
  · rw [(loadOrGenerateChunk_untouched s cx cz k hk).1]; exact h

theorem loadOrGenerateChunk_already (s : GameState) (cx cz : ℤ)
    (r : ChunkRecord) (h : s.chunks (cx, 0, cz) = some r) :
    loadOrGenerateChunk s cx cz = s := by
  simp only [loadOrGenerateChunk, getChunkKeyFromCoords, h]

theorem loadOrGenerateChunk_from_cache (s : GameState) (cx cz : ℤ)
    (arr : List CellEntry) (hres : s.chunks (cx, 0, cz) = none)
    (hd : s.chunkData (cx, 0, cz) = some arr) :
    (loadOrGenerateChunk s cx cz).chunks (cx, 0, cz)
        = some (mkRecFromArray arr) ∧
    (loadOrGenerateChunk s cx cz).chunkData = s.chunkData := by
  simp only [loadOrGenerateChunk, getChunkKeyFromCoords, hres, hd]
  exact ⟨mset_self _ _ _, rfl⟩

theorem loadOrGenerateChunk_generated (s : GameState) (cx cz : ℤ)
    (hres : s.chunks (cx, 0, cz) = none)
    (hd : s.chunkData (cx, 0, cz) = none) :
    (loadOrGenerateChunk s cx cz).chunks (cx, 0, cz)
        = some (mkRecFromArray (generateGroundArrayForChunk cx cz)) ∧
    (loadOrGenerateChunk s cx cz).chunkData
        = mset s.chunkData (cx, 0, cz) (generateGroundArrayForChunk cx cz) := by
  simp only [loadOrGenerateChunk, getChunkKeyFromCoords, hres, hd]
  exact ⟨mset_self _ _ _, rfl⟩

theorem onlyY0_loadOrGenerateChunk (s : GameState) (cx cz : ℤ)
    (h0 : OnlyY0 s) : OnlyY0 (loadOrGenerateChunk s cx cz) := by
  intro k rec hk
  by_cases hke : k = (cx, 0, cz)
  · rw [hke]
  · rw [(loadOrGenerateChunk_untouched s cx cz k hke).1] at hk
    exact h0 k rec hk

theorem onlyY0_addBlockAt (s : GameState) (x y z : ℚ) (t : BlockType)
    (h0 : OnlyY0 s) : OnlyY0 (addBlockAt s x y z t) := by
  intro k rec hk
  have h1 := addBlockAt_chunks_isSome s x y z t k (by rw [hk]; rfl)
  obtain ⟨r0, hr0⟩ := Option.isSome_iff_exists.mp h1
  exact h0 k r0 hr0

theorem onlyY0_removeBlockAt (s : GameState) (x y z : ℚ)
    (h0 : OnlyY0 s) : OnlyY0 (removeBlockAt s x y z) := by
  intro k rec hk
  have h1 := removeBlockAt_chunks_isSome s x y z k (by rw [hk]; rfl)
  obtain ⟨r0, hr0⟩ := Option.isSome_iff_exists.mp h1
  exact h0 k r0 hr0

theorem onlyY0_unloadChunk (s : GameState) (key : ChunkKey)
    (h0 : OnlyY0 s) : OnlyY0 (unloadChunk s key) := by
  intro k rec hk
  simp only [unloadChunk] at hk
  cases hc : s.chunks key with
  | none => rw [hc] at hk; exact h0 k rec hk
  | some r =>
    rw [hc] at hk
    by_cases hke : k = key
    · simp only [mdel, if_pos hke] at hk
      exact Option.noConfusion hk
    · simp only [mdel, if_neg hke] at hk
      exact h0 k rec hk

/-! ## Streaming reconciliation (claim C4) -/

theorem mem_renderOffsets (d : ℤ × ℤ) :
    d ∈ renderOffsets ↔ -2 ≤ d.1 ∧ d.1 ≤ 2 ∧ -2 ≤ d.2 ∧ d.2 ≤ 2 := by
  unfold renderOffsets
  simp only [List.mem_flatMap, List.mem_map, List.mem_range]
  constructor
  · rintro ⟨dx, ⟨a, ha, rfl⟩, ⟨dz, ⟨b, hb, rfl⟩, rfl⟩⟩
    constructor
    · omega
    · constructor
      · omega
      · constructor <;> omega
  · rintro ⟨h1, h2, h3, h4⟩
    refine ⟨d.1, ⟨(d.1 + 2).toNat, by omega, by omega⟩,
      d.2, ⟨(d.2 + 2).toNat, by omega, by omega⟩, rfl⟩

theorem renderOffsets_nodup : renderOffsets.Nodup := by decide

theorem activeKey_injective (px pz : ℤ) :
    Function.Injective fun d : ℤ × ℤ =>
      ((px + d.1, 0, pz + d.2) : ChunkKey) := by
  intro a b h
  simp only [Prod.mk.injEq] at h
  obtain ⟨h1, _, h2⟩ := h
  exact Prod.ext (by omega) (by omega)

theorem mem_activeKeys (px pz : ℤ) (k : ChunkKey) :
    k ∈ activeKeys px pz ↔
      k.2.1 = 0 ∧ |k.1 - px| ≤ 2 ∧ |k.2.2 - pz| ≤ 2 := by
  obtain ⟨k1, k2, k3⟩ := k
  unfold activeKeys
  simp only [List.mem_map, getChunkKeyFromCoords, Prod.mk.injEq]
  constructor
  · rintro ⟨d, hd, h1, h2, h3⟩
    rw [mem_renderOffsets] at hd
    rw [abs_le, abs_le]
    omega
  · intro h
    rw [abs_le, abs_le] at h
    refine ⟨(k1 - px, k3 - pz), ?_, by omega, by omega, by omega⟩
    rw [mem_renderOffsets]
    dsimp only
    omega

theorem activeKeys_nodup (px pz : ℤ) :
    ((renderOffsets.map fun d => ((px + d.1, 0, pz + d.2) : ChunkKey))).Nodup :=
  renderOffsets_nodup.map (activeKey_injective px pz)

theorem foldLoad_untouched (px pz : ℤ) (L : List (ℤ × ℤ)) :
    ∀ (s : GameState) (k : ChunkKey),
      (∀ d ∈ L, k ≠ (px + d.1, 0, pz + d.2)) →
      ((L.foldl (fun acc d => loadOrGenerateChunk acc (px + d.1) (pz + d.2)) s).chunks k
          = s.chunks k ∧
       (L.foldl (fun acc d => loadOrGenerateChunk acc (px + d.1) (pz + d.2)) s).chunkData k
          = s.chunkData k) := by
  induction L with
  | nil => intro s k _; exact ⟨rfl, rfl⟩
  | cons a T ih =>
    intro s k h
    simp only [List.foldl_cons]
    have h1 := loadOrGenerateChunk_untouched s (px + a.1) (pz + a.2) k
      (h a (List.mem_cons_self a T))
    have h2 := ih (loadOrGenerateChunk s (px + a.1) (pz + a.2)) k
      (fun d hd => h d (List.mem_cons_of_mem a hd))
    exact ⟨h2.1.trans h1.1, h2.2.trans h1.2⟩

theorem foldLoad_mono (px pz : ℤ) (L : List (ℤ × ℤ)) :
    ∀ (s : GameState) (k : ChunkKey), (s.chunks k).isSome →
      ((L.foldl (fun acc d => loadOrGenerateChunk acc (px + d.1) (pz + d.2)) s).chunks k).isSome := by
  induction L with
  | nil => intro s k h; exact h
  | cons a T ih =>
    intro s k h
    simp only [List.foldl_cons]
    exact ih _ k (loadOrGenerateChunk_mono s (px + a.1) (pz + a.2) k h)

theorem foldLoad_resident (px pz : ℤ) (L : List (ℤ × ℤ)) :
    ∀ (s : GameState) (d : ℤ × ℤ), d ∈ L →
      ((L.foldl (fun acc d => loadOrGenerateChunk acc (px + d.1) (pz + d.2)) s).chunks
          (px + d.1, 0, pz + d.2)).isSome := by
  induction L with
  | nil => intro s d hd; exact absurd hd (List.not_mem_nil d)
  | cons a T ih =>
    intro s d hd
    simp only [List.foldl_cons]
    rcases List.mem_cons.mp hd with rfl | hdT
    · exact foldLoad_mono px pz T _ _
        (loadOrGenerateChunk_resident s (px + d.1) (pz + d.2))
    · exact ih _ d hdT

theorem foldLoad_fresh (px pz : ℤ) (L : List (ℤ × ℤ)) :
    ∀ (s : GameState) (d : ℤ × ℤ), d ∈ L →
      ((L.map fun d => ((px + d.1, 0, pz + d.2) : ChunkKey)).Nodup) →
      s.chunks (px + d.1, 0, pz + d.2) = none →
      ((∀ arr, s.chunkData (px + d.1, 0, pz + d.2) = some arr →
          (L.foldl (fun acc d => loadOrGenerateChunk acc (px + d.1) (pz + d.2)) s).chunks
              (px + d.1, 0, pz + d.2) = some (mkRecFromArray arr) ∧
          (L.foldl (fun acc d => loadOrGenerateChunk acc (px + d.1) (pz + d.2)) s).chunkData
              (px + d.1, 0, pz + d.2) = some arr) ∧
       (s.chunkData (px + d.1, 0, pz + d.2) = none →
          (L.foldl (fun acc d => loadOrGenerateChunk acc (px + d.1) (pz + d.2)) s).chunks
              (px + d.1, 0, pz + d.2)
            = some (mkRecFromArray (generateGroundArrayForChunk (px + d.1) (pz + d.2))) ∧
          (L.foldl (fun acc d => loadOrGenerateChunk acc (px + d.1) (pz + d.2)) s).chunkData
              (px + d.1, 0, pz + d.2)
            = some (generateGroundArrayForChunk (px + d.1) (pz + d.2)))) := by
  induction L with
  | nil => intro s d hd; exact absurd hd (List.not_mem_nil d)
  | cons a T ih =>
    intro s d hd hnd hres
    rw [List.map_cons, List.nodup_cons] at hnd
    have hnd1 := hnd
    simp only [List.foldl_cons]
    rcases List.mem_cons.mp hd with rfl | hdT
    · -- the head load handles key d; the tail loads never touch it again
      have huntouched : ∀ e ∈ T,
          ((px + d.1, 0, pz + d.2) : ChunkKey) ≠ (px + e.1, 0, pz + e.2) := by
        intro e he heq
        exact hnd1.1 (heq ▸ List.mem_map_of_mem _ he)
      constructor
      · intro arr harr
        have hload := loadOrGenerateChunk_from_cache s (px + d.1) (pz + d.2)
          arr hres harr
        have hT := foldLoad_untouched px pz T
          (loadOrGenerateChunk s (px + d.1) (pz + d.2)) _ huntouched
        refine ⟨hT.1.trans hload.1, hT.2.trans ?_⟩
        rw [hload.2]
        exact harr
      · intro harr
        have hload := loadOrGenerateChunk_generated s (px + d.1) (pz + d.2)
          hres harr
        have hT := foldLoad_untouched px pz T
          (loadOrGenerateChunk s (px + d.1) (pz + d.2)) _ huntouched
        refine ⟨hT.1.trans hload.1, hT.2.trans ?_⟩
        rw [hload.2]
        exact mset_self _ _ _
    · -- the head load touches a different key
      have hne : ((px + d.1, 0, pz + d.2) : ChunkKey) ≠ (px + a.1, 0, pz + a.2) := by
        intro heq
        exact hnd1.1 (heq ▸ List.mem_map_of_mem _ hdT)
      have ha := loadOrGenerateChunk_untouched s (px + a.1) (pz + a.2) _ hne
      have ih2 := ih (loadOrGenerateChunk s (px + a.1) (pz + a.2)) d hdT
        hnd1.2 (ha.1.trans hres)
      constructor
      · intro arr harr
        exact ih2.1 arr (ha.2.trans harr)
      · intro harr
        exact ih2.2 (ha.2.trans harr)

/-- Claim C4: after one `updateChunks`, a chunk key is resident exactly when
it lies in the radius-2 Chebyshev square around the viewer's chunk coordinate
(with y-component 0); previously resident keys outside the square have been
unloaded, and keys inside the square that were not resident have been built
from the chunk-data cache when an entry existed, and otherwise generated,
cached and built. -/
theorem C4_streaming_reconciliation (s : GameState) (camX camZ : ℚ)
    (k : ChunkKey) :
    (((updateChunks s camX camZ).chunks k).isSome ↔
      (k.2.1 = 0 ∧ |k.1 - ⌊camX / (CHUNK_SIZE : ℚ)⌋| ≤ 2 ∧
        |k.2.2 - ⌊camZ / (CHUNK_SIZE : ℚ)⌋| ≤ 2)) ∧
    ((k.2.1 = 0 ∧ |k.1 - ⌊camX / (CHUNK_SIZE : ℚ)⌋| ≤ 2 ∧
        |k.2.2 - ⌊camZ / (CHUNK_SIZE : ℚ)⌋| ≤ 2) →
      s.chunks k = none →
      (∀ arr, s.chunkData k = some arr →
        (updateChunks s camX camZ).chunks k = some (mkRecFromArray arr) ∧
        (updateChunks s camX camZ).chunkData k = some arr) ∧
      (s.chunkData k = none →
        (updateChunks s camX camZ).chunks k
            = some (mkRecFromArray (generateGroundArrayForChunk k.1 k.2.2)) ∧
        (updateChunks s camX camZ).chunkData k
            = some (generateGroundArrayForChunk k.1 k.2.2))) := by
  set px := ⌊camX / (CHUNK_SIZE : ℚ)⌋ with hpx
  set pz := ⌊camZ / (CHUNK_SIZE : ℚ)⌋ with hpz
  have hup : updateChunks s camX camZ =
      { renderOffsets.foldl
          (fun acc d => loadOrGenerateChunk acc (px + d.1) (pz + d.2)) s with
        chunks := fun q => if q ∈ activeKeys px pz then
          (renderOffsets.foldl
            (fun acc d => loadOrGenerateChunk acc (px + d.1) (pz + d.2)) s).chunks q
          else none } := rfl
  obtain ⟨k1, k2, k3⟩ := k
  constructor
  · rw [hup]
    constructor
    · intro h
      simp only at h
      by_cases hmem : ((k1, k2, k3) : ChunkKey) ∈ activeKeys px pz
      · exact (mem_activeKeys px pz (k1, k2, k3)).mp hmem
      · rw [if_neg hmem] at h
        exact absurd h (by simp)
    · intro h
      have hmem := (mem_activeKeys px pz (k1, k2, k3)).mpr h
      simp only [if_pos hmem]
      obtain ⟨h0, h1, h2⟩ := h
      dsimp only at h0 h1 h2
      rw [abs_le] at h1 h2
      have hd : ((k1 - px, k3 - pz) : ℤ × ℤ) ∈ renderOffsets := by
        rw [mem_renderOffsets]
        refine ⟨by omega, by omega, by omega, by omega⟩
      have := foldLoad_resident px pz renderOffsets s (k1 - px, k3 - pz) hd
      have hkeq : ((px + (k1 - px), 0, pz + (k3 - pz)) : ChunkKey)
          = (k1, k2, k3) := by
        simp only [Prod.mk.injEq]
        refine ⟨by omega, by omega, by omega⟩
      rwa [hkeq] at this
  · intro h hres
    have hmem := (mem_activeKeys px pz (k1, k2, k3)).mpr h
    obtain ⟨h0, h1, h2⟩ := h
    dsimp only at h0 h1 h2
    rw [abs_le] at h1 h2
    have hd : ((k1 - px, k3 - pz) : ℤ × ℤ) ∈ renderOffsets := by
      rw [mem_renderOffsets]
      refine ⟨by omega, by omega, by omega, by omega⟩
    have hkeq : ((px + (k1 - px), 0, pz + (k3 - pz)) : ChunkKey)
        = (k1, k2, k3) := by
      simp only [Prod.mk.injEq]
      refine ⟨by omega, by omega, by omega⟩
    have hfresh := foldLoad_fresh px pz renderOffsets s (k1 - px, k3 - pz) hd
      (activeKeys_nodup px pz) (by rwa [hkeq])
    rw [hkeq] at hfresh
    have harg : px + (k1 - px) = k1 := by omega
    have harg2 : pz + (k3 - pz) = k3 := by omega
    rw [harg, harg2] at hfresh
    constructor
    · intro arr harr
      have hc := hfresh.1 arr harr
      rw [hup]
      exact ⟨by simp only [if_pos hmem]; exact hc.1, hc.2⟩
    · intro harr
      have hc := hfresh.2 harr
      rw [hup]
      exact ⟨by simp only [if_pos hmem]; exact hc.1, hc.2⟩

/-- Witness for C4: updating from the empty state with the viewer at the
origin makes chunk `(1, 0, 2)` (Chebyshev distance 2) resident, generated and
cached. -/
theorem C4_streaming_reconciliation_witness :
    ((updateChunks emptyState 0 0).chunks ((1 : ℤ), (0 : ℤ), (2 : ℤ))).isSome ∧
    (updateChunks emptyState 0 0).chunkData ((1 : ℤ), (0 : ℤ), (2 : ℤ))
      = some (generateGroundArrayForChunk 1 2) := by
  have h := C4_streaming_reconciliation emptyState 0 0 (1, 0, 2)
  have hin : (((1 : ℤ), (0 : ℤ), (2 : ℤ)) : ChunkKey).2.1 = 0 ∧
      |(((1 : ℤ), (0 : ℤ), (2 : ℤ)) : ChunkKey).1 - ⌊(0 : ℚ) / (CHUNK_SIZE : ℚ)⌋| ≤ 2 ∧
      |(((1 : ℤ), (0 : ℤ), (2 : ℤ)) : ChunkKey).2.2 - ⌊(0 : ℚ) / (CHUNK_SIZE : ℚ)⌋| ≤ 2 := by
    rw [chunkSize_cast]
    norm_num
  exact ⟨h.1.mpr hin, ((h.2 hin rfl).2 rfl).2⟩

/-! ## Occupancy folds and chunk-data arrays -/

theorem occFold_not_mem (arr : List CellEntry) :
    ∀ (f : Cell → Option BlockType) (c : Cell), c ∉ arr.map entryCell →
      (arr.foldl (fun occ e => mset occ (entryCell e) e.ty) f) c = f c := by
  induction arr with
  | nil => intro f c _; rfl
  | cons a T ih =>
    intro f c h
    simp only [List.map_cons, List.mem_cons, not_or] at h
    simp only [List.foldl_cons]
    rw [ih _ c h.2, mset_other _ _ _ _ h.1]

theorem occFold_mem (arr : List CellEntry) :
    ∀ (f : Cell → Option BlockType) (e : CellEntry), e ∈ arr →
      (arr.map entryCell).Nodup →
      (arr.foldl (fun occ e => mset occ (entryCell e) e.ty) f) (entryCell e)
        = some e.ty := by
  induction arr with
  | nil => intro f e h _; exact absurd h (List.not_mem_nil e)
  | cons a T ih =>
    intro f e he hnd
    rw [List.map_cons, List.nodup_cons] at hnd
    simp only [List.foldl_cons]
    rcases List.mem_cons.mp he with rfl | heT
    · rw [occFold_not_mem T _ _ hnd.1, mset_self]
    · exact ih _ e heT hnd.2

theorem occFold_mem_ne_none (arr : List CellEntry) :
    ∀ (f : Cell → Option BlockType) (c : Cell), c ∈ arr.map entryCell →
      (arr.foldl (fun occ e => mset occ (entryCell e) e.ty) f) c ≠ none := by
  induction arr with
  | nil => intro f c h; exact absurd h (List.not_mem_nil c)
  | cons a T ih =>
    intro f c h
    simp only [List.foldl_cons]
    by_cases hT : c ∈ T.map entryCell
    · exact ih _ c hT
    · simp only [List.map_cons, List.mem_cons] at h
      rcases h with rfl | h2
      · rw [occFold_not_mem T _ _ hT, mset_self]
        exact Option.noConfusion
      · exact absurd h2 hT

theorem occOfList_none_iff (arr : List CellEntry) (c : Cell) :
    occOfList arr c = none ↔ c ∉ arr.map entryCell := by
  constructor
  · intro h hm
    exact occFold_mem_ne_none arr _ c hm h
  · exact occFold_not_mem arr _ c

theorem occOfList_mem (arr : List CellEntry) (e : CellEntry) (he : e ∈ arr)
    (hnd : (arr.map entryCell).Nodup) :
    occOfList arr (entryCell e) = some e.ty :=
  occFold_mem arr _ e he hnd

theorem occOfList_some_iff (arr : List CellEntry)
    (hnd : (arr.map entryCell).Nodup) (c : Cell) (t : BlockType) :
    occOfList arr c = some t ↔ ∃ e ∈ arr, entryCell e = c ∧ e.ty = t := by
  constructor
  · intro h
    have hm : c ∈ arr.map entryCell := by
      by_contra hm
      rw [(occOfList_none_iff arr c).mpr hm] at h
      exact Option.noConfusion h
    obtain ⟨e, he, rfl⟩ := List.mem_map.mp hm
    rw [occOfList_mem arr e he hnd] at h
    exact ⟨e, he, rfl, (Option.some.injEq .. ▸ h).symm ▸ rfl⟩
  · rintro ⟨e, he, rfl, rfl⟩
    exact occOfList_mem arr e he hnd

theorem occOfList_append_one (arr : List CellEntry) (e : CellEntry) :
    occOfList (arr ++ [e]) = mset (occOfList arr) (entryCell e) e.ty := by
  unfold occOfList
  rw [List.foldl_append]
  rfl

theorem occFold_filter (c : Cell) (arr : List CellEntry) :
    ∀ (f g : Cell → Option BlockType), (∀ q, q ≠ c → f q = g q) →
      ∀ q, q ≠ c →
        ((arr.filter fun e => entryCell e ≠ c).foldl
            (fun occ e => mset occ (entryCell e) e.ty) f) q
          = (arr.foldl (fun occ e => mset occ (entryCell e) e.ty) g) q := by
  induction arr with
  | nil => intro f g hfg q hq; exact hfg q hq
  | cons a T ih =>
    intro f g hfg q hq
    by_cases ha : entryCell a = c
    · have hdrop : ((a :: T).filter fun e => entryCell e ≠ c)
          = T.filter fun e => entryCell e ≠ c := by
        simp [List.filter_cons, ha]
      rw [hdrop]
      simp only [List.foldl_cons]
      refine ih f (mset g (entryCell a) a.ty) ?_ q hq
      intro r hr
      rw [mset_other _ _ _ _ (by rw [ha]; exact hr), hfg r hr]
    · have hkeep : ((a :: T).filter fun e => entryCell e ≠ c)
          = a :: T.filter fun e => entryCell e ≠ c := by
        simp [List.filter_cons, ha]
      rw [hkeep]
      simp only [List.foldl_cons]
      refine ih _ _ ?_ q hq
      intro r hr
      by_cases hra : r = entryCell a
      · rw [hra, mset_self, mset_self]
      · rw [mset_other _ _ _ _ hra, mset_other _ _ _ _ hra, hfg r hr]

theorem occOfList_filter_cell (arr : List CellEntry) (c : Cell) :
    occOfList (arr.filter fun e => entryCell e ≠ c)
      = mdel (occOfList arr) c := by
  funext q
  by_cases hq : q = c
  · subst hq
    rw [mdel_self]
    refine (occOfList_none_iff _ q).mpr ?_
    intro hm
    obtain ⟨e, he, heq⟩ := List.mem_map.mp hm
    have := List.of_mem_filter he
    rw [heq] at this
    simp at this
  · rw [mdel_other _ _ _ hq]
    exact occFold_filter c arr _ _ (fun r _ => rfl) q hq

theorem filter_coords_eq_filter_cell (k : ChunkKey) (arr : List CellEntry)
    (c : Cell) (hdw : DataWF k arr) :
    (arr.filter fun q =>
        ¬(q.x = (c.1 : ℚ) + 1 / 2 ∧ q.y = (c.2.1 : ℚ) + 1 / 2 ∧
          q.z = (c.2.2 : ℚ) + 1 / 2))
      = arr.filter fun e => entryCell e ≠ c := by
  refine List.filter_congr ?_
  intro e he
  obtain ⟨hsnap, _⟩ := hdw.1 e he
  have hiff : (e.x = (c.1 : ℚ) + 1 / 2 ∧ e.y = (c.2.1 : ℚ) + 1 / 2 ∧
      e.z = (c.2.2 : ℚ) + 1 / 2) ↔ entryCell e = c := by
    constructor
    · rintro ⟨h1, h2, h3⟩
      show getCellKey e.x e.y e.z = c
      rw [h1, h2, h3]
      exact getCellKey_center c
    · intro hc
      obtain ⟨s1, s2, s3⟩ := hsnap
      rw [hc] at s1 s2 s3
      exact ⟨s1, s2, s3⟩
  simp only [decide_eq_decide]
  exact not_congr hiff

/-! ## JS array assignment -/

theorem jsArraySet_append {α : Type*} (l : List α) (v d : α) :
    jsArraySet l l.length v d = l ++ [v] := by
  unfold jsArraySet
  rw [if_neg (lt_irrefl _)]
  simp

theorem jsArraySet_set {α : Type*} (l : List α) (i : ℕ) (v d : α)
    (h : i < l.length) : jsArraySet l i v d = l.set i v := by
  unfold jsArraySet
  rw [if_pos h]

/-! ## Capacity growth characterization for the add path -/

theorem ensureCapacityForType_fields (rec : ChunkRecord) (t : BlockType)
    (needed : ℕ) :
    (ensureCapacityForType rec t needed).occupancy = rec.occupancy ∧
    (ensureCapacityForType rec t needed).indexMaps = rec.indexMaps ∧
    (ensureCapacityForType rec t needed).cellsByIndex = rec.cellsByIndex ∧
    (ensureCapacityForType rec t needed).counts = rec.counts ∧
    ∀ q, q ≠ t → (ensureCapacityForType rec t needed).meshes q = rec.meshes q ∧
      (ensureCapacityForType rec t needed).capacities q = rec.capacities q := by
  unfold ensureCapacityForType
  by_cases h : needed ≤ rec.capacities t
  · rw [if_pos h]
    exact ⟨rfl, rfl, rfl, rfl, fun q _ => ⟨rfl, rfl⟩⟩
  · rw [if_neg h]
    cases hm : rec.meshes t with
    | none =>
      exact ⟨rfl, rfl, rfl, rfl,
        fun q hq => ⟨tset_other _ _ _ _ hq, tset_other _ _ _ _ hq⟩⟩
    | some m =>
      exact ⟨rfl, rfl, rfl, rfl,
        fun q hq => ⟨tset_other _ _ _ _ hq, tset_other _ _ _ _ hq⟩⟩

theorem ensureCapacity_ready (rec : ChunkRecord) (t : BlockType)
    (hcle : rec.counts t ≤ rec.capacities t)
    (hnone : rec.meshes t = none → rec.capacities t = 0)
    (hsome : ∀ m, rec.meshes t = some m →
      m.buffer.length = rec.capacities t ∧ m.count = rec.counts t) :
    ∃ m2, (ensureCapacityForType rec t (rec.counts t + 1)).meshes t = some m2 ∧
      m2.buffer.length
          = (ensureCapacityForType rec t (rec.counts t + 1)).capacities t ∧
      m2.count = rec.counts t ∧
      rec.counts t + 1 ≤ (ensureCapacityForType rec t (rec.counts t + 1)).capacities t ∧
      ∀ m, rec.meshes t = some m →
        ∀ i, i < rec.counts t → m2.buffer[i]? = m.buffer[i]? := by
  by_cases h : rec.counts t + 1 ≤ rec.capacities t
  · have heq : ensureCapacityForType rec t (rec.counts t + 1) = rec := by
      unfold ensureCapacityForType
      rw [if_pos h]
    cases hm : rec.meshes t with
    | none =>
      have := hnone hm
      omega
    | some m =>
      rw [heq]
      refine ⟨m, hm, (hsome m hm).1, (hsome m hm).2, h, ?_⟩
      intro m0 hm0 i _
      obtain rfl := Option.some.inj hm0
      rfl
  · have hif : ¬ rec.counts t + 1 ≤ rec.capacities t := h
    cases hm : rec.meshes t with
    | none =>
      have hc0 : rec.capacities t = 0 := hnone hm
      have heq : ensureCapacityForType rec t (rec.counts t + 1)
          = { rec with
              meshes := tset rec.meshes t (some (createInstancedMesh
                (max (rec.counts t + 1) (max 8 (rec.capacities t * 2)))))
              capacities := tset rec.capacities t
                (max (rec.counts t + 1) (max 8 (rec.capacities t * 2))) } := by
        unfold ensureCapacityForType
        rw [if_neg hif, hm]
      rw [heq]
      refine ⟨_, tset_self _ _ _, ?_, ?_, ?_, ?_⟩
      · simp only [tset_self, createInstancedMesh, List.length_replicate]
      · have hz : rec.counts t = 0 := by omega
        simp only [createInstancedMesh, hz]
      · simp only [tset_self]
        exact le_max_left _ _
      · intro m0 hm0
        exact Option.noConfusion hm0
    | some m =>
      have heq : ensureCapacityForType rec t (rec.counts t + 1)
          = { rec with
              meshes := tset rec.meshes t (some
                { buffer := (List.range (rec.counts t)).foldl
                    (fun buf i => buf.set i (m.buffer.getD i ⟨0, 0, 0⟩))
                    (createInstancedMesh
                      (max (rec.counts t + 1) (max 8 (rec.capacities t * 2)))).buffer
                  count := rec.counts t })
              capacities := tset rec.capacities t
                (max (rec.counts t + 1) (max 8 (rec.capacities t * 2))) } := by
        unfold ensureCapacityForType
        rw [if_neg hif, hm]
      rw [heq]
      refine ⟨_, tset_self _ _ _, ?_, rfl, ?_, ?_⟩
      · simp only [tset_self, foldlSet_length, createInstancedMesh,
          List.length_replicate]
      · simp only [tset_self]
        exact le_max_left _ _
      · intro m0 hm0 i hi
        obtain rfl := Option.some.inj hm0
        simp only [foldlSet_getElem]
        have hlen := (hsome m hm).1
        have hib : i < m.buffer.length := by omega
        have hi2 : i < (createInstancedMesh
            (max (rec.counts t + 1) (max 8 (rec.capacities t * 2)))).buffer.length := by
          simp only [createInstancedMesh, List.length_replicate]
          omega
        rw [if_pos ⟨hi, hi2⟩, List.getD_eq_getElem m.buffer _ hib,
          List.getElem?_eq_getElem hib]

/-! ## The build loop (`buildChunkFromArray`'s `forEach`) -/

theorem fillFold_char (t : BlockType) (es : List CellEntry) :
    ∀ (n : ℕ) (r : ChunkRecord) (m : InstMesh),
      r.meshes t = some m →
      (r.cellsByIndex t).length = n →
      n + es.length ≤ m.buffer.length →
      (es.map entryCell).Nodup →
      ∃ m2, ((List.enumFrom n es).foldl (fillStep t) r).meshes t = some m2 ∧
        m2.count = m.count ∧ m2.buffer.length = m.buffer.length ∧
        (∀ i : ℕ, i < n → m2.buffer[i]? = m.buffer[i]?) ∧
        (∀ (j : ℕ) (e : CellEntry), es[j]? = some e →
            m2.buffer[n + j]? = some ⟨e.x, e.y, e.z⟩) ∧
        ((List.enumFrom n es).foldl (fillStep t) r).cellsByIndex t
            = r.cellsByIndex t ++ es.map entryCell ∧
        (∀ c : Cell, c ∉ es.map entryCell →
            ((List.enumFrom n es).foldl (fillStep t) r).indexMaps t c
              = r.indexMaps t c) ∧
        (∀ (j : ℕ) (e : CellEntry), es[j]? = some e →
            ((List.enumFrom n es).foldl (fillStep t) r).indexMaps t (entryCell e)
              = some (n + j)) ∧
        ((List.enumFrom n es).foldl (fillStep t) r).occupancy = r.occupancy ∧
        ((List.enumFrom n es).foldl (fillStep t) r).counts = r.counts ∧
        ((List.enumFrom n es).foldl (fillStep t) r).capacities = r.capacities ∧
        (∀ q, q ≠ t →
          ((List.enumFrom n es).foldl (fillStep t) r).meshes q = r.meshes q ∧
          ((List.enumFrom n es).foldl (fillStep t) r).indexMaps q = r.indexMaps q ∧
          ((List.enumFrom n es).foldl (fillStep t) r).cellsByIndex q
            = r.cellsByIndex q) := by
  induction es with
  | nil =>
    intro n r m hm _ _ _
    refine ⟨m, hm, rfl, rfl, fun i _ => rfl, ?_, by simp, fun c _ => rfl, ?_,
      rfl, rfl, rfl, fun q _ => ⟨rfl, rfl, rfl⟩⟩
    · intro j e hj
      simp at hj
    · intro j e hj
      simp at hj
  | cons a T ih =>
    intro n r m hm hlen hcap hnd
    rw [List.map_cons, List.nodup_cons] at hnd
    rw [List.enumFrom_cons]
    simp only [List.foldl_cons]
    -- the record after placing entry `a` at slot `n`
    have hr1m : (fillStep t r (n, a)).meshes t
        = some { m with buffer := m.buffer.set n ⟨a.x, a.y, a.z⟩ } := by
      simp only [fillStep, setInstanceAt, meshSetMatrixAt, hm, tset_self]
      rfl
    have hr1cells : (fillStep t r (n, a)).cellsByIndex t
        = r.cellsByIndex t ++ [entryCell a] := by
      simp only [fillStep, setInstanceAt, meshSetMatrixAt, tset_self]
      rw [← hlen, jsArraySet_append]
    have hr1idx : (fillStep t r (n, a)).indexMaps t
        = mset (r.indexMaps t) (entryCell a) n := by
      simp only [fillStep, setInstanceAt, meshSetMatrixAt, tset_self]
    have hr1occ : (fillStep t r (n, a)).occupancy = r.occupancy := rfl
    have hr1counts : (fillStep t r (n, a)).counts = r.counts := rfl
    have hr1caps : (fillStep t r (n, a)).capacities = r.capacities := rfl
    have hr1other : ∀ q, q ≠ t →
        (fillStep t r (n, a)).meshes q = r.meshes q ∧
        (fillStep t r (n, a)).indexMaps q = r.indexMaps q ∧
        (fillStep t r (n, a)).cellsByIndex q = r.cellsByIndex q := by
      intro q hq
      refine ⟨?_, ?_, ?_⟩ <;>
        simp only [fillStep, setInstanceAt, meshSetMatrixAt, tset_other _ _ _ _ hq]
    have hlen1 : ((fillStep t r (n, a)).cellsByIndex t).length = n + 1 := by
      rw [hr1cells, List.length_append, hlen]
      rfl
    have hcap1 : n + 1 + T.length
        ≤ (m.buffer.set n ⟨a.x, a.y, a.z⟩).length := by
      rw [List.length_set]
      simp only [List.length_cons] at hcap
      omega
    obtain ⟨m2, h2m, h2cnt, h2len, h2keep, h2new, h2cells, h2idxout, h2idxin,
      h2occ, h2counts, h2caps, h2other⟩ :=
      ih (n + 1) (fillStep t r (n, a)) _ hr1m hlen1 hcap1 hnd.2
    have hnlt : n < m.buffer.length := by
      simp only [List.length_cons] at hcap
      omega
    refine ⟨m2, h2m, h2cnt, by rw [h2len, List.length_set], ?_, ?_, ?_, ?_, ?_,
      h2occ.trans hr1occ, h2counts.trans hr1counts, h2caps.trans hr1caps, ?_⟩
    · -- indices below n are untouched
      intro i hi
      rw [h2keep i (by omega), List.getElem?_set]
      rw [if_neg (by omega)]
    · -- entry j of (a :: T) sits at slot n + j
      intro j e hj
      cases j with
      | zero =>
        simp only [List.getElem?_cons_zero, Option.some.injEq] at hj
        subst hj
        rw [Nat.add_zero, h2keep n (by omega), List.getElem?_set]
        simp [hnlt]
      | succ j0 =>
        simp only [List.getElem?_cons_succ] at hj
        have := h2new j0 e hj
        have harith : n + (j0 + 1) = n + 1 + j0 := by omega
        rw [harith]
        exact this
    · rw [h2cells, hr1cells, List.append_assoc]
      rfl
    · intro c hc
      simp only [List.map_cons, List.mem_cons, not_or] at hc
      rw [h2idxout c hc.2, hr1idx, mset_other _ _ _ _ hc.1]
    · intro j e hj
      cases j with
      | zero =>
        simp only [List.getElem?_cons_zero, Option.some.injEq] at hj
        subst hj
        rw [h2idxout _ hnd.1, hr1idx, mset_self]
        simp
      | succ j0 =>
        simp only [List.getElem?_cons_succ] at hj
        have := h2idxin j0 e hj
        have harith : n + (j0 + 1) = n + 1 + j0 := by omega
        rw [harith]
        exact this
    · intro q hq
      obtain ⟨o1, o2, o3⟩ := h2other q hq
      obtain ⟨p1, p2, p3⟩ := hr1other q hq
      exact ⟨o1.trans p1, o2.trans p2, o3.trans p3⟩

theorem fillType_char (t : BlockType) (es : List CellEntry) (r : ChunkRecord)
    (hcounts : r.counts t = 0) (hcap : r.capacities t = 0)
    (hmesh : r.meshes t = none) (hcells : r.cellsByIndex t = [])
    (hidx : r.indexMaps t = fun _ => none)
    (hnd : (es.map entryCell).Nodup) :
    (fillType r t es).occupancy = r.occupancy ∧
    (fillType r t es).counts t = es.length ∧
    (fillType r t es).cellsByIndex t = es.map entryCell ∧
    (∀ (j : ℕ) (e : CellEntry), es[j]? = some e →
        (fillType r t es).indexMaps t (entryCell e) = some j) ∧
    (∀ c : Cell, c ∉ es.map entryCell → (fillType r t es).indexMaps t c = none) ∧
    es.length ≤ (fillType r t es).capacities t ∧
    ((fillType r t es).meshes t = none → (fillType r t es).capacities t = 0) ∧
    (∀ m, (fillType r t es).meshes t = some m →
        m.buffer.length = (fillType r t es).capacities t ∧
        m.count = es.length ∧
        ∀ (j : ℕ) (e : CellEntry), es[j]? = some e →
          m.buffer[j]? = some ⟨e.x, e.y, e.z⟩) ∧
    (∀ q, q ≠ t → (fillType r t es).meshes q = r.meshes q ∧
        (fillType r t es).indexMaps q = r.indexMaps q ∧
        (fillType r t es).cellsByIndex q = r.cellsByIndex q ∧
        (fillType r t es).counts q = r.counts q ∧
        (fillType r t es).capacities q = r.capacities q) := by
  cases hes : es.isEmpty
  case true =>
    have he : es = [] := List.isEmpty_iff.mp hes
    subst he
    have hft : fillType r t [] = r := rfl
    rw [hft]
    refine ⟨rfl, by rw [hcounts]; rfl, by rw [hcells]; rfl, ?_, ?_, ?_,
      fun _ => hcap, ?_, fun q _ => ⟨rfl, rfl, rfl, rfl, rfl⟩⟩
    · intro j e hj
      simp at hj
    · intro c _
      rw [hidx]
    · rw [hcap]
      simp
    · intro m hm
      rw [hmesh] at hm
      exact Option.noConfusion hm
  case false =>
    have hpos : 0 < es.length := by
      cases es
      · simp at hes
      · simp
    have hne : ¬ es.length ≤ r.capacities t := by omega
    have heq1 : ensureCapacityForType r t es.length
        = { r with
            meshes := tset r.meshes t (some (createInstancedMesh
              (max es.length (max 8 (r.capacities t * 2)))))
            capacities := tset r.capacities t
              (max es.length (max 8 (r.capacities t * 2))) } := by
      unfold ensureCapacityForType
      rw [if_neg hne, hmesh]
    have hft : fillType r t es
        = meshSetCount
            { es.enum.foldl (fillStep t) (ensureCapacityForType r t es.length) with
              counts := tset
                (es.enum.foldl (fillStep t) (ensureCapacityForType r t es.length)).counts
                t es.length }
            t es.length := by
      unfold fillType
      rw [hes]
      rfl
    have hr1m : (ensureCapacityForType r t es.length).meshes t
        = some (createInstancedMesh (max es.length (max 8 (r.capacities t * 2)))) := by
      rw [heq1]
      exact tset_self _ _ _
    have hr1cells : (ensureCapacityForType r t es.length).cellsByIndex t = [] := by
      rw [heq1]
      exact hcells
    have hr1len : ((ensureCapacityForType r t es.length).cellsByIndex t).length = 0 := by
      rw [hr1cells]
      rfl
    have hr1cap : 0 + es.length ≤ (createInstancedMesh
        (max es.length (max 8 (r.capacities t * 2)))).buffer.length := by
      simp only [createInstancedMesh, List.length_replicate]
      have := le_max_left es.length (max 8 (r.capacities t * 2))
      omega
    obtain ⟨m2, h2m, h2cnt, h2len, _, h2new, h2cells, h2idxout, h2idxin,
      h2occ, h2counts, h2caps, h2other⟩ :=
      fillFold_char t es 0 (ensureCapacityForType r t es.length) _ hr1m hr1len
        hr1cap hnd
    rw [List.enum_eq_enumFrom] at hft
    rw [hft]
    have hfoldm : (List.foldl (fillStep t)
        (ensureCapacityForType r t es.length) (List.enumFrom 0 es)).meshes t
        = some m2 := h2m
    have hfinm : (meshSetCount
        { List.foldl (fillStep t) (ensureCapacityForType r t es.length)
            (List.enumFrom 0 es) with
          counts := tset (List.foldl (fillStep t)
            (ensureCapacityForType r t es.length) (List.enumFrom 0 es)).counts
            t es.length } t es.length).meshes t
        = some { m2 with count := es.length } := by
      simp only [meshSetCount, hfoldm, tset_self]
      rfl
    refine ⟨?_, ?_, ?_, ?_, ?_, ?_, ?_, ?_, ?_⟩
    · show (List.foldl (fillStep t) (ensureCapacityForType r t es.length)
          (List.enumFrom 0 es)).occupancy = r.occupancy
      rw [h2occ, heq1]
    · simp only [meshSetCount]
      exact tset_self _ _ _
    · simp only [meshSetCount]
      show (List.foldl (fillStep t) _ (List.enumFrom 0 es)).cellsByIndex t = _
      rw [h2cells, hr1cells]
      rfl
    · intro j e hj
      simp only [meshSetCount]
      show (List.foldl (fillStep t) _ (List.enumFrom 0 es)).indexMaps t _ = _
      rw [h2idxin j e hj]
      simp
    · intro c hc
      simp only [meshSetCount]
      show (List.foldl (fillStep t) _ (List.enumFrom 0 es)).indexMaps t c = _
      rw [h2idxout c hc, heq1]
      show r.indexMaps t c = none
      rw [hidx]
    · simp only [meshSetCount]
      show es.length ≤ (List.foldl (fillStep t) _ (List.enumFrom 0 es)).capacities t
      rw [h2caps, heq1]
      show es.length ≤ tset r.capacities t _ t
      rw [tset_self]
      exact le_max_left _ _
    · intro hmn
      rw [hfinm] at hmn
      exact Option.noConfusion hmn
    · intro m hm
      rw [hfinm] at hm
      obtain rfl := Option.some.inj hm
      refine ⟨?_, rfl, ?_⟩
      · show m2.buffer.length = _
        rw [h2len]
        simp only [meshSetCount]
        show _ = (List.foldl (fillStep t) _ (List.enumFrom 0 es)).capacities t
        rw [h2caps, heq1]
        show (createInstancedMesh _).buffer.length = tset r.capacities t _ t
        rw [tset_self]
        simp [createInstancedMesh]
      · intro j e hj
        show m2.buffer[j]? = _
        have := h2new j e hj
        simpa using this
    · intro q hq
      have hens := ensureCapacityForType_fields r t es.length
      obtain ⟨o1, o2, o3⟩ := h2other q hq
      refine ⟨?_, ?_, ?_, ?_, ?_⟩
      · simp only [meshSetCount, tset_other _ _ _ _ hq]
        show (List.foldl (fillStep t) _ (List.enumFrom 0 es)).meshes q = _
        rw [o1]
        exact (hens.2.2.2.2 q hq).1
      · simp only [meshSetCount]
        show (List.foldl (fillStep t) _ (List.enumFrom 0 es)).indexMaps q = _
        rw [o2, hens.2.1]
      · simp only [meshSetCount]
        show (List.foldl (fillStep t) _ (List.enumFrom 0 es)).cellsByIndex q = _
        rw [o3, hens.2.2.1]
      · simp only [meshSetCount, tset_other _ _ _ _ hq]
        show (List.foldl (fillStep t) _ (List.enumFrom 0 es)).counts q = _
        rw [show (List.foldl (fillStep t) (ensureCapacityForType r t es.length)
            (List.enumFrom 0 es)).counts = (ensureCapacityForType r t es.length).counts
            from h2counts, hens.2.2.2.1]
      · simp only [meshSetCount]
        show (List.foldl (fillStep t) _ (List.enumFrom 0 es)).capacities q = _
        rw [h2caps]
        exact (hens.2.2.2.2 q hq).2

/-! ## Well-formedness of freshly built records -/

theorem mem_filter_ty (arr : List CellEntry) (t : BlockType) (e : CellEntry) :
    e ∈ arr.filter (fun e => e.ty = t) ↔ e ∈ arr ∧ e.ty = t := by
  simp [List.mem_filter]

theorem filter_map_nodup (arr : List CellEntry) (t : BlockType)
    (hnd : (arr.map entryCell).Nodup) :
    (((arr.filter fun e => e.ty = t)).map entryCell).Nodup :=
  hnd.sublist ((List.filter_sublist arr).map entryCell)

theorem batchWF_mk (t : BlockType) (arr F : List CellEntry) (R3 : ChunkRecord)
    (hF : F = arr.filter fun e => e.ty = t)
    (hnd_arr : (arr.map entryCell).Nodup)
    (hsnap : ∀ e ∈ arr, entrySnapped e)
    (hocc : R3.occupancy = occOfList arr)
    (hcounts : R3.counts t = F.length)
    (hcells : R3.cellsByIndex t = F.map entryCell)
    (hidxin : ∀ (j : ℕ) (e : CellEntry), F[j]? = some e →
      R3.indexMaps t (entryCell e) = some j)
    (hidxout : ∀ c : Cell, c ∉ F.map entryCell → R3.indexMaps t c = none)
    (hcaple : F.length ≤ R3.capacities t)
    (hmn : R3.meshes t = none → R3.capacities t = 0)
    (hms : ∀ m, R3.meshes t = some m → m.buffer.length = R3.capacities t ∧
      m.count = F.length ∧ ∀ (j : ℕ) (e : CellEntry), F[j]? = some e →
        m.buffer[j]? = some ⟨e.x, e.y, e.z⟩) :
    BatchWF R3 t := by
  have hmapget : ∀ (j : ℕ) (c : Cell), (F.map entryCell)[j]? = some c →
      ∃ e, F[j]? = some e ∧ entryCell e = c := by
    intro j c hj
    rw [List.getElem?_map] at hj
    cases hFj : F[j]? with
    | none => rw [hFj] at hj; exact Option.noConfusion hj
    | some e =>
      rw [hFj] at hj
      exact ⟨e, rfl, Option.some.inj hj⟩
  refine ⟨?_, ?_, ?_, ?_, ?_, ?_, ?_, ?_⟩
  · rw [hcells, hcounts, List.length_map]
  · -- idx_cell
    intro c i hidx
    have hmem : c ∈ F.map entryCell := by
      by_contra hmem
      rw [hidxout c hmem] at hidx
      exact Option.noConfusion hidx
    obtain ⟨j, hj⟩ := List.mem_iff_getElem?.mp hmem
    obtain ⟨e, hFj, hcell⟩ := hmapget j c hj
    have := hidxin j e hFj
    rw [hcell] at this
    rw [hidx] at this
    obtain rfl := Option.some.inj this
    rw [hcells]
    exact hj
  · -- cell_idx
    intro i c hcellg
    rw [hcells] at hcellg
    obtain ⟨e, hFi, hcell⟩ := hmapget i c hcellg
    rw [← hcell]
    exact hidxin i e hFi
  · -- occ_idx
    intro c
    rw [hocc]
    constructor
    · intro hoc
      obtain ⟨e, he, hcell, hty⟩ := (occOfList_some_iff arr hnd_arr c t).mp hoc
      have heF : e ∈ F := by
        rw [hF, mem_filter_ty]
        exact ⟨he, hty⟩
      have : c ∈ F.map entryCell := hcell ▸ List.mem_map_of_mem entryCell heF
      obtain ⟨j, hj⟩ := List.mem_iff_getElem?.mp this
      obtain ⟨e2, hFj, hcell2⟩ := hmapget j c hj
      rw [← hcell2, hidxin j e2 hFj]
      rfl
    · intro his
      have hmem : c ∈ F.map entryCell := by
        by_contra hmem
        rw [hidxout c hmem] at his
        simp at his
      obtain ⟨e, heF, hcell⟩ := List.mem_map.mp hmem
      obtain ⟨he, hty⟩ := (hF ▸ mem_filter_ty arr t e).mp heF
      rw [← hcell, occOfList_mem arr e he hnd_arr, hty]
  · rw [← hcounts] at hcaple
    exact hcaple
  · exact hmn
  · intro m hm
    exact ⟨(hms m hm).1, hcounts ▸ (hms m hm).2.1⟩
  · -- transform
    intro i c hcellg
    rw [hcells] at hcellg
    obtain ⟨e, hFi, hcell⟩ := hmapget i c hcellg
    cases hmsh : R3.meshes t with
    | none =>
      exfalso
      have hc0 := hmn hmsh
      have : F.length = 0 := by omega
      have : F[i]? = none := List.getElem?_eq_none (by omega)
      rw [this] at hFi
      exact Option.noConfusion hFi
    | some m =>
      refine ⟨m, rfl, ?_⟩
      rw [(hms m hmsh).2.2 i e hFi]
      have heF : e ∈ F := by
        cases hFmem : F[i]? with
        | none => rw [hFmem] at hFi; exact Option.noConfusion hFi
        | some e2 =>
          rw [hFmem] at hFi
          obtain rfl := Option.some.inj hFi
          exact List.mem_iff_getElem?.mpr ⟨i, hFmem⟩
      have he : e ∈ arr := ((hF ▸ mem_filter_ty arr t e).mp heF).1
      obtain ⟨s1, s2, s3⟩ := hsnap e he
      rw [hcell] at s1 s2 s3
      rw [show (⟨e.x, e.y, e.z⟩ : Pos) = posCenter c by
        unfold posCenter
        rw [s1, s2, s3]]

theorem mkRecFromArray_wf (k : ChunkKey) (arr : List CellEntry)
    (h : DataWF k arr) :
    RecordWF (mkRecFromArray arr) ∧
    (mkRecFromArray arr).occupancy = occOfList arr := by
  have hsnap : ∀ e ∈ arr, entrySnapped e := fun e he => (h.1 e he).1
  have hnd := h.2
  have hndG := filter_map_nodup arr .green hnd
  have hndB := filter_map_nodup arr .brown hnd
  have hmk : mkRecFromArray arr
      = fillType
          (fillType { makeEmptyChunkRecord with occupancy := occOfList arr }
            .green (arr.filter fun e => e.ty = BlockType.green))
          .brown (arr.filter fun e => e.ty = BlockType.brown) := rfl
  obtain ⟨g_occ, g_counts, g_cells, g_idxin, g_idxout, g_caple, g_mn, g_ms,
    g_other⟩ :=
    fillType_char .green (arr.filter fun e => e.ty = BlockType.green)
      { makeEmptyChunkRecord with occupancy := occOfList arr }
      rfl rfl rfl rfl rfl hndG
  obtain ⟨b_occ, b_counts, b_cells, b_idxin, b_idxout, b_caple, b_mn, b_ms,
    b_other⟩ :=
    fillType_char .brown (arr.filter fun e => e.ty = BlockType.brown)
      (fillType { makeEmptyChunkRecord with occupancy := occOfList arr }
        .green (arr.filter fun e => e.ty = BlockType.green))
      (by rw [(g_other .brown (by decide)).2.2.2.1]; rfl)
      (by rw [(g_other .brown (by decide)).2.2.2.2]; rfl)
      (by rw [(g_other .brown (by decide)).1]; rfl)
      (by rw [(g_other .brown (by decide)).2.2.1]; rfl)
      (by rw [(g_other .brown (by decide)).2.1]; rfl)
      hndB
  have hocc3 : (mkRecFromArray arr).occupancy = occOfList arr := by
    rw [hmk, b_occ, g_occ]
  refine ⟨?_, hocc3⟩
  intro t
  cases t with
  | green =>
    have hob := g_other .brown (by decide)
    have hog := b_other .green (by decide)
    refine batchWF_mk .green arr _ _ rfl hnd hsnap hocc3 ?_ ?_ ?_ ?_ ?_ ?_ ?_
    · rw [hmk, hog.2.2.2.1, g_counts]
    · rw [hmk, hog.2.2.1, g_cells]
    · intro j e hj
      rw [hmk, show (fillType (fillType _ .green _) .brown _).indexMaps .green
          = (fillType { makeEmptyChunkRecord with occupancy := occOfList arr }
              .green (arr.filter fun e => e.ty = BlockType.green)).indexMaps .green
          from hog.2.1]
      exact g_idxin j e hj
    · intro c hc
      rw [hmk, show (fillType (fillType _ .green _) .brown _).indexMaps .green
          = (fillType { makeEmptyChunkRecord with occupancy := occOfList arr }
              .green (arr.filter fun e => e.ty = BlockType.green)).indexMaps .green
          from hog.2.1]
      exact g_idxout c hc
    · rw [hmk, hog.2.2.2.2]
      exact g_caple
    · rw [hmk, hog.1, hog.2.2.2.2]
      exact g_mn
    · intro m hm
      rw [hmk, hog.1] at hm
      rw [hmk, hog.2.2.2.2]
      exact g_ms m hm
  | brown =>
    refine batchWF_mk .brown arr _ _ rfl hnd hsnap hocc3 ?_ ?_ ?_ ?_ ?_ ?_ ?_
    · rw [hmk]; exact b_counts
    · rw [hmk]; exact b_cells
    · intro j e hj
      rw [hmk]; exact b_idxin j e hj
    · intro c hc
      rw [hmk]; exact b_idxout c hc
    · rw [hmk]; exact b_caple
    · rw [hmk]; exact b_mn
    · intro m hm
      rw [hmk] at hm
      rw [hmk]
      exact b_ms m hm

/-! ## State invariant: establishment and preservation by loading -/

theorem generate_DataWF (cx cz : ℤ) :
    DataWF (cx, 0, cz) (generateGroundArrayForChunk cx cz) := by
  constructor
  · intro e he
    rw [generate_mem] at he
    obtain ⟨x, hx, z, hz, y, hy, rfl⟩ := he
    constructor
    · unfold entrySnapped
      rw [entryCell_generated cx cz x z y hx hz hy]
      refine ⟨?_, ?_, ?_⟩
      · dsimp only
        push_cast
        ring
      · dsimp only
        push_cast
        ring
      · dsimp only
        push_cast
        ring
    · dsimp only
      unfold getChunkKey
      rw [chunkSize_cast]
      simp only [Prod.mk.injEq]
      have hx15 : (x : ℚ) ≤ 15 := by exact_mod_cast (by omega : x ≤ 15)
      have hz15 : (z : ℚ) ≤ 15 := by exact_mod_cast (by omega : z ≤ 15)
      have hy2 : (y : ℚ) ≤ 2 := by exact_mod_cast (by omega : y ≤ 2)
      refine ⟨?_, ?_, ?_⟩
      · show ⌊((cx : ℚ) * 16 + x + 1 / 2) / 16⌋ = cx
        have harr : (cx : ℚ) * 16 + x + 1 / 2 = (cx : ℚ) * 16 + ((x : ℚ) + 1 / 2) := by
          ring
        rw [harr, floor_mul16_add cx _ (by positivity) (by linarith)]
      · show ⌊((y : ℚ) + 1 / 2) / 16⌋ = 0
        rw [floor_div16_eq_zero_iff]
        constructor
        · positivity
        · linarith
      · show ⌊((cz : ℚ) * 16 + z + 1 / 2) / 16⌋ = cz
        have harr : (cz : ℚ) * 16 + z + 1 / 2 = (cz : ℚ) * 16 + ((z : ℚ) + 1 / 2) := by
          ring
        rw [harr, floor_mul16_add cz _ (by positivity) (by linarith)]
  · exact generate_cells_nodup cx cz

theorem stateInv_empty : StateInv emptyState :=
  ⟨fun _ rec h => Option.noConfusion h, fun _ arr h => Option.noConfusion h⟩

theorem stateInv_loadOrGenerateChunk (s : GameState) (cx cz : ℤ)
    (hs : StateInv s) : StateInv (loadOrGenerateChunk s cx cz) := by
  cases hc : s.chunks (cx, 0, cz) with
  | some r =>
    rw [loadOrGenerateChunk_already s cx cz r hc]
    exact hs
  | none =>
    cases hd : s.chunkData (cx, 0, cz) with
    | some arr =>
      obtain ⟨hch, hcd⟩ := loadOrGenerateChunk_from_cache s cx cz arr hc hd
      constructor
      · intro k
        by_cases hk : k = (cx, 0, cz)
        · subst hk
          intro rec hrec
          rw [hch] at hrec
          obtain rfl := Option.some.inj hrec
          have hdw := hs.2 _ arr hd
          exact ⟨rfl, (mkRecFromArray_wf _ arr hdw).1, arr,
            by rw [hcd]; exact hd, (mkRecFromArray_wf _ arr hdw).2⟩
        · intro rec hrec
          rw [(loadOrGenerateChunk_untouched s cx cz k hk).1] at hrec
          obtain ⟨h0, hwf, arr2, hd2, hsync⟩ := hs.1 k rec hrec
          exact ⟨h0, hwf, arr2, by rw [hcd]; exact hd2, hsync⟩
      · intro k arr2 hd2
        rw [hcd] at hd2
        exact hs.2 k arr2 hd2
    | none =>
      obtain ⟨hch, hcd⟩ := loadOrGenerateChunk_generated s cx cz hc hd
      constructor
      · intro k
        by_cases hk : k = (cx, 0, cz)
        · subst hk
          intro rec hrec
          rw [hch] at hrec
          obtain rfl := Option.some.inj hrec
          have hdw := generate_DataWF cx cz
          exact ⟨rfl, (mkRecFromArray_wf _ _ hdw).1, _,
            by rw [hcd]; exact mset_self _ _ _, (mkRecFromArray_wf _ _ hdw).2⟩
        · intro rec hrec
          rw [(loadOrGenerateChunk_untouched s cx cz k hk).1] at hrec
          obtain ⟨h0, hwf, arr2, hd2, hsync⟩ := hs.1 k rec hrec
          refine ⟨h0, hwf, arr2, ?_, hsync⟩
          rw [hcd, mset_other _ _ _ _ hk]
          exact hd2
      · intro k arr2 hd2
        rw [hcd] at hd2
        by_cases hk : k = (cx, 0, cz)
        · subst hk
          rw [mset_self] at hd2
          obtain rfl := Option.some.inj hd2
          exact generate_DataWF cx cz
        · rw [mset_other _ _ _ _ hk] at hd2
          exact hs.2 k arr2 hd2

/-! ## The successful add path -/

theorem addBlockAt_state (s : GameState) (x y z : ℚ) (t : BlockType)
    (rec : ChunkRecord) (hc : s.chunks (getChunkKey x y z) = some rec)
    (ho : rec.occupancy (getCellKey x y z) = none)
    (hwf : BatchWF rec t) :
    ∃ rec5, addBlockAt s x y z t
        = { s with
            chunks := mset s.chunks (getChunkKey x y z) rec5
            chunkData := mset s.chunkData (getChunkKey x y z)
              ((s.chunkData (getChunkKey x y z)).getD [] ++ [⟨x, y, z, t⟩]) } ∧
      rec5.occupancy = mset rec.occupancy (getCellKey x y z) t ∧
      rec5.counts t = rec.counts t + 1 ∧
      (∀ q, q ≠ t → rec5.counts q = rec.counts q) ∧
      rec5.cellsByIndex t = rec.cellsByIndex t ++ [getCellKey x y z] ∧
      (∀ q, q ≠ t → rec5.cellsByIndex q = rec.cellsByIndex q) ∧
      rec5.indexMaps t = mset (rec.indexMaps t) (getCellKey x y z) (rec.counts t) ∧
      (∀ q, q ≠ t → rec5.indexMaps q = rec.indexMaps q) ∧
      (∀ q, q ≠ t → rec5.meshes q = rec.meshes q ∧
        rec5.capacities q = rec.capacities q) ∧
      rec.counts t + 1 ≤ rec5.capacities t ∧
      ∃ m5, rec5.meshes t = some m5 ∧
        m5.buffer.length = rec5.capacities t ∧
        m5.count = rec.counts t + 1 ∧
        m5.buffer[rec.counts t]? = some ⟨x, y, z⟩ ∧
        ∀ i, i < rec.counts t → ∀ m, rec.meshes t = some m →
          m5.buffer[i]? = m.buffer[i]? := by
  obtain ⟨m2, hEm, hElen, hEcnt, hEcap, hEcopy⟩ :=
    ensureCapacity_ready { rec with occupancy := mset rec.occupancy (getCellKey x y z) t }
      t hwf.count_le hwf.mesh_none hwf.mesh_some
  have hEfields := ensureCapacityForType_fields
    { rec with occupancy := mset rec.occupancy (getCellKey x y z) t }
    t (rec.counts t + 1)
  set E := ensureCapacityForType
    { rec with occupancy := mset rec.occupancy (getCellKey x y z) t }
    t (rec.counts t + 1) with hE
  have hEcells : E.cellsByIndex t = rec.cellsByIndex t := by
    rw [hEfields.2.2.1]
  have hEcellslen : (E.cellsByIndex t).length = rec.counts t := by
    rw [hEcells, hwf.len]
  have hEcounts : E.counts t = rec.counts t := by
    rw [hEfields.2.2.2.1]
  have hEidx : E.indexMaps = rec.indexMaps := hEfields.2.1
  have hEocc : E.occupancy = mset rec.occupancy (getCellKey x y z) t :=
    hEfields.1
  refine ⟨meshSetCount
      { setInstanceAt E t (E.counts t) x y z with
        cellsByIndex := tset (setInstanceAt E t (E.counts t) x y z).cellsByIndex t
          (jsArraySet ((setInstanceAt E t (E.counts t) x y z).cellsByIndex t)
            (E.counts t) (getCellKey x y z) (0, 0, 0))
        indexMaps := tset (setInstanceAt E t (E.counts t) x y z).indexMaps t
          (mset ((setInstanceAt E t (E.counts t) x y z).indexMaps t)
            (getCellKey x y z) (E.counts t))
        counts := tset (setInstanceAt E t (E.counts t) x y z).counts t
          ((setInstanceAt E t (E.counts t) x y z).counts t + 1) }
      t
      (tset (setInstanceAt E t (E.counts t) x y z).counts t
        ((setInstanceAt E t (E.counts t) x y z).counts t + 1) t),
    ?_, ?_, ?_, ?_, ?_, ?_, ?_, ?_, ?_, ?_, ?_⟩
  · show addBlockAt s x y z t = _
    simp only [addBlockAt, hc, ho]
  · -- occupancy
    show (meshSetCount _ t _).occupancy = _
    simp only [meshSetCount]
    exact hEocc
  · -- counts at t
    show tset E.counts t (E.counts t + 1) t = _
    rw [tset_self, hEcounts]
  · intro q hq
    show tset E.counts t (E.counts t + 1) q = _
    rw [tset_other _ _ _ _ hq, hEfields.2.2.2.1]
  · -- cellsByIndex at t
    show tset ((setInstanceAt E t (E.counts t) x y z).cellsByIndex)
        t (jsArraySet ((setInstanceAt E t (E.counts t) x y z).cellsByIndex t)
          (E.counts t) (getCellKey x y z) (0, 0, 0)) t = _
    rw [tset_self]
    have hsicells : (setInstanceAt E t (E.counts t) x y z).cellsByIndex
        = E.cellsByIndex := rfl
    rw [hsicells, hEcells, hEcounts, ← hwf.len, jsArraySet_append]
  · intro q hq
    show tset _ t _ q = _
    rw [tset_other _ _ _ _ hq]
    exact congrFun hEfields.2.2.1 q
  · -- indexMaps at t
    show tset _ t (mset ((setInstanceAt E t (E.counts t) x y z).indexMaps t)
        (getCellKey x y z) (E.counts t)) t = _
    rw [tset_self]
    have : (setInstanceAt E t (E.counts t) x y z).indexMaps = E.indexMaps := rfl
    rw [this, hEidx, hEcounts]
  · intro q hq
    show tset _ t _ q = _
    rw [tset_other _ _ _ _ hq]
    exact congrFun hEidx q
  · intro q hq
    constructor
    · show tset _ t _ q = _
      rw [tset_other _ _ _ _ hq]
      show tset E.meshes t _ q = _
      rw [tset_other _ _ _ _ hq]
      exact (hEfields.2.2.2.2 q hq).1
    · show E.capacities q = _
      exact (hEfields.2.2.2.2 q hq).2
  · show rec.counts t + 1 ≤ E.capacities t
    exact hEcap
  · -- the final mesh
    refine ⟨⟨m2.buffer.set (rec.counts t) ⟨x, y, z⟩, rec.counts t + 1⟩, ?_, ?_,
      rfl, ?_, ?_⟩
    · show tset _ t (Option.map _ ((setInstanceAt E t (E.counts t) x y z).meshes t)) t
          = _
      rw [tset_self]
      have hsim : (setInstanceAt E t (E.counts t) x y z).meshes t
          = some { m2 with buffer := m2.buffer.set (E.counts t) ⟨x, y, z⟩ } := by
        simp only [setInstanceAt, meshSetMatrixAt, hEm, tset_self]
        rfl
      rw [hsim, hEcounts]
      have hsic : (setInstanceAt E t (rec.counts t) x y z).counts = E.counts := rfl
      simp [hsic, hEcounts, tset_self]
    · show (m2.buffer.set (rec.counts t) ⟨x, y, z⟩).length = E.capacities t
      rw [List.length_set, hElen]
    · rw [List.getElem?_set]
      have hlt : rec.counts t < m2.buffer.length := by
        have hcap2 : rec.counts t + 1 ≤ E.capacities t := hEcap
        rw [hElen]
        omega
      rw [if_pos rfl, if_pos hlt]
    · intro i hi m hm
      rw [List.getElem?_set, if_neg (by omega)]
      exact hEcopy m hm i hi

/-! ## The successful remove path -/

theorem removeBlockAt_eq (s : GameState) (x y z : ℚ) (t : BlockType)
    (rec : ChunkRecord) (arr : List CellEntry) (idx : ℕ)
    (hc : s.chunks (getChunkKey x y z) = some rec)
    (ho : rec.occupancy (getCellKey x y z) = some t)
    (hd : s.chunkData (getChunkKey x y z) = some arr)
    (hidx : rec.indexMaps t (getCellKey x y z) = some idx) :
    removeBlockAt s x y z =
      { s with
        chunks := mset s.chunks (getChunkKey x y z)
          (removeResultRecord rec t (getCellKey x y z) idx)
        chunkData := mset s.chunkData (getChunkKey x y z)
          (arr.filter fun c => ¬(c.x = x ∧ c.y = y ∧ c.z = z)) } := by
  simp only [removeBlockAt, removeResultRecord, hc, ho, hd, hidx,
    Option.getD_some]

theorem removeResultRecord_occupancy (rec : ChunkRecord) (t : BlockType)
    (ck : Cell) (idx : ℕ) :
    (removeResultRecord rec t ck idx).occupancy = mdel rec.occupancy ck := by
  by_cases hil : idx = rec.counts t - 1 <;>
    simp only [removeResultRecord, meshSetCount, meshSetMatrixAt,
      meshGetMatrixAt, if_pos, if_neg, hil, if_true, if_false]

theorem removeResultRecord_counts (rec : ChunkRecord) (t : BlockType)
    (ck : Cell) (idx : ℕ) :
    (removeResultRecord rec t ck idx).counts
      = tset rec.counts t (rec.counts t - 1) := by
  by_cases hil : idx = rec.counts t - 1 <;>
    simp only [removeResultRecord, meshSetCount, meshSetMatrixAt,
      meshGetMatrixAt, if_pos, if_neg, hil, if_true, if_false]

theorem removeResultRecord_capacities (rec : ChunkRecord) (t : BlockType)
    (ck : Cell) (idx : ℕ) :
    (removeResultRecord rec t ck idx).capacities = rec.capacities := by
  by_cases hil : idx = rec.counts t - 1 <;>
    simp only [removeResultRecord, meshSetCount, meshSetMatrixAt,
      meshGetMatrixAt, if_pos, if_neg, hil, if_true, if_false]

theorem removeResultRecord_cells (rec : ChunkRecord) (t : BlockType)
    (ck : Cell) (idx : ℕ) :
    (removeResultRecord rec t ck idx).cellsByIndex t
      = ((if idx = rec.counts t - 1 then rec.cellsByIndex t
          else jsArraySet (rec.cellsByIndex t) idx
            ((rec.cellsByIndex t).getD (rec.counts t - 1) (0, 0, 0))
            (0, 0, 0)).take (rec.counts t - 1)) := by
  by_cases hil : idx = rec.counts t - 1 <;>
    simp only [removeResultRecord, meshSetCount, meshSetMatrixAt,
      meshGetMatrixAt, if_pos, if_neg, hil, if_true, if_false, tset_self]

theorem removeResultRecord_cells_other (rec : ChunkRecord) (t : BlockType)
    (ck : Cell) (idx : ℕ) (q : BlockType) (hq : q ≠ t) :
    (removeResultRecord rec t ck idx).cellsByIndex q
      = rec.cellsByIndex q := by
  by_cases hil : idx = rec.counts t - 1 <;>
    simp only [removeResultRecord, meshSetCount, meshSetMatrixAt,
      meshGetMatrixAt, if_pos, if_neg, hil, if_true, if_false,
      tset_other _ _ _ _ hq]

theorem removeResultRecord_indexMaps (rec : ChunkRecord) (t : BlockType)
    (ck : Cell) (idx : ℕ) :
    (removeResultRecord rec t ck idx).indexMaps t
      = mdel (if idx = rec.counts t - 1 then rec.indexMaps t
          else mset (rec.indexMaps t)
            ((rec.cellsByIndex t).getD (rec.counts t - 1) (0, 0, 0)) idx)
          ck := by
  by_cases hil : idx = rec.counts t - 1 <;>
    simp only [removeResultRecord, meshSetCount, meshSetMatrixAt,
      meshGetMatrixAt, if_pos, if_neg, hil, if_true, if_false, tset_self]

theorem removeResultRecord_indexMaps_other (rec : ChunkRecord)
    (t : BlockType) (ck : Cell) (idx : ℕ) (q : BlockType) (hq : q ≠ t) :
    (removeResultRecord rec t ck idx).indexMaps q = rec.indexMaps q := by
  by_cases hil : idx = rec.counts t - 1 <;>
    simp only [removeResultRecord, meshSetCount, meshSetMatrixAt,
      meshGetMatrixAt, if_pos, if_neg, hil, if_true, if_false,
      tset_other _ _ _ _ hq]

theorem removeResultRecord_meshes (rec : ChunkRecord) (t : BlockType)
    (ck : Cell) (idx : ℕ) :
    (removeResultRecord rec t ck idx).meshes t
      = Option.map
          (fun m =>
            ⟨if idx = rec.counts t - 1 then m.buffer
              else m.buffer.set idx (meshGetMatrixAt rec t (rec.counts t - 1)),
             rec.counts t - 1⟩)
          (rec.meshes t) := by
  by_cases hil : idx = rec.counts t - 1 <;>
    simp only [removeResultRecord, meshSetCount, meshSetMatrixAt, if_pos,
      if_neg, hil, if_true, if_false, tset_self] <;>
    cases rec.meshes t <;> rfl

theorem removeResultRecord_meshes_other (rec : ChunkRecord) (t : BlockType)
    (ck : Cell) (idx : ℕ) (q : BlockType) (hq : q ≠ t) :
    (removeResultRecord rec t ck idx).meshes q = rec.meshes q := by
  by_cases hil : idx = rec.counts t - 1 <;>
    simp only [removeResultRecord, meshSetCount, meshSetMatrixAt, if_pos,
      if_neg, hil, if_true, if_false, tset_other _ _ _ _ hq]

/-! ## Invariant preservation by the edit functions -/

theorem getElem_lt_of_some {α : Type*} (l : List α) (i : ℕ) (a : α)
    (h : l[i]? = some a) : i < l.length := by
  rw [List.getElem?_eq_some] at h
  exact h.1

theorem batchWF_transfer (r r2 : ChunkRecord) (q : BlockType)
    (h : BatchWF r q)
    (hocc : ∀ c, r2.occupancy c = some q ↔ r.occupancy c = some q)
    (hm : r2.meshes q = r.meshes q) (him : r2.indexMaps q = r.indexMaps q)
    (hcb : r2.cellsByIndex q = r.cellsByIndex q)
    (hcn : r2.counts q = r.counts q)
    (hcp : r2.capacities q = r.capacities q) :
    BatchWF r2 q := by
  constructor
  · rw [hcb, hcn]
    exact h.len
  · intro c i hi
    rw [him] at hi
    rw [hcb]
    exact h.idx_cell c i hi
  · intro i c hi
    rw [hcb] at hi
    rw [him]
    exact h.cell_idx i c hi
  · intro c
    rw [hocc c, him]
    exact h.occ_idx c
  · rw [hcn, hcp]
    exact h.count_le
  · rw [hm, hcp]
    exact h.mesh_none
  · intro m hm2
    rw [hm] at hm2
    rw [hcp, hcn]
    exact h.mesh_some m hm2
  · intro i c hi
    rw [hcb] at hi
    rw [hm]
    exact h.transform i c hi

theorem batchWF_add (rec rec5 : ChunkRecord) (t : BlockType) (ck : Cell)
    (m5 : InstMesh) (hB : BatchWF rec t) (ho : rec.occupancy ck = none)
    (hocc : rec5.occupancy = mset rec.occupancy ck t)
    (hcnt : rec5.counts t = rec.counts t + 1)
    (hcells : rec5.cellsByIndex t = rec.cellsByIndex t ++ [ck])
    (hidx : rec5.indexMaps t = mset (rec.indexMaps t) ck (rec.counts t))
    (hcap : rec.counts t + 1 ≤ rec5.capacities t)
    (hm5 : rec5.meshes t = some m5)
    (hm5len : m5.buffer.length = rec5.capacities t)
    (hm5cnt : m5.count = rec.counts t + 1)
    (hm5new : m5.buffer[rec.counts t]? = some (posCenter ck))
    (hm5copy : ∀ i, i < rec.counts t → ∀ m, rec.meshes t = some m →
      m5.buffer[i]? = m.buffer[i]?) :
    BatchWF rec5 t := by
  constructor
  · rw [hcells, hcnt, List.length_append, hB.len]
    rfl
  · intro c i hi
    rw [hidx] at hi
    rw [hcells]
    by_cases hcc : c = ck
    · subst hcc
      rw [mset_self] at hi
      obtain rfl := Option.some.inj hi
      rw [← hB.len]
      exact List.getElem?_concat_length _ _
    · rw [mset_other _ _ _ _ hcc] at hi
      have h2 := hB.idx_cell c i hi
      rw [List.getElem?_append, if_pos (getElem_lt_of_some _ i c h2)]
      exact h2
  · intro i c hi
    rw [hcells] at hi
    rw [hidx]
    rcases Nat.lt_trichotomy i (rec.cellsByIndex t).length with hlt | heq | hgt
    · rw [List.getElem?_append, if_pos hlt] at hi
      have h2 := hB.cell_idx i c hi
      have hcc : c ≠ ck := by
        intro hceq
        subst hceq
        have hsome := (hB.occ_idx c).mpr (by rw [h2]; rfl)
        rw [ho] at hsome
        exact Option.noConfusion hsome
      rw [mset_other _ _ _ _ hcc]
      exact h2
    · subst heq
      rw [List.getElem?_concat_length] at hi
      obtain rfl := Option.some.inj hi
      rw [mset_self, hB.len]
    · have hnone : ((rec.cellsByIndex t) ++ [ck])[i]? = none :=
        List.getElem?_eq_none (by simp [List.length_append]; omega)
      rw [hnone] at hi
      exact Option.noConfusion hi
  · intro c
    rw [hocc, hidx]
    by_cases hcc : c = ck
    · subst hcc
      rw [mset_self, mset_self]
      simp
    · rw [mset_other _ _ _ _ hcc, mset_other _ _ _ _ hcc]
      exact hB.occ_idx c
  · rw [hcnt]
    exact hcap
  · intro hnone
    rw [hm5] at hnone
    exact Option.noConfusion hnone
  · intro m hm
    rw [hm5] at hm
    obtain rfl := Option.some.inj hm
    exact ⟨hm5len, by rw [hm5cnt, hcnt]⟩
  · intro i c hi
    rw [hcells] at hi
    refine ⟨m5, hm5, ?_⟩
    rcases Nat.lt_trichotomy i (rec.cellsByIndex t).length with hlt | heq | hgt
    · rw [List.getElem?_append, if_pos hlt] at hi
      obtain ⟨m, hm, hbuf⟩ := hB.transform i c hi
      rw [hm5copy i (by rw [← hB.len]; exact hlt) m hm]
      exact hbuf
    · subst heq
      rw [List.getElem?_concat_length] at hi
      obtain rfl := Option.some.inj hi
      rw [hB.len]
      exact hm5new
    · have hnone : ((rec.cellsByIndex t) ++ [ck])[i]? = none :=
        List.getElem?_eq_none (by simp [List.length_append]; omega)
      rw [hnone] at hi
      exact Option.noConfusion hi

theorem stateInv_addBlockAt_center (s : GameState) (c : Cell) (t : BlockType)
    (x y z : ℚ) (hx : x = (c.1 : ℚ) + 1 / 2) (hy : y = (c.2.1 : ℚ) + 1 / 2)
    (hz : z = (c.2.2 : ℚ) + 1 / 2) (hs : StateInv s) :
    StateInv (addBlockAt s x y z t) := by
  have hck : getCellKey x y z = c := by
    rw [hx, hy, hz]
    exact getCellKey_center c
  cases hc : s.chunks (getChunkKey x y z) with
  | none =>
    have hno : addBlockAt s x y z t = s := by
      simp only [addBlockAt, hc]
    rw [hno]
    exact hs
  | some rec =>
    cases ho : rec.occupancy (getCellKey x y z) with
    | some t0 =>
      have hno : addBlockAt s x y z t = s := by
        simp only [addBlockAt, hc, ho]
      rw [hno]
      exact hs
    | none =>
      obtain ⟨k0, hRwf, arr, hdarr, hsync⟩ := hs.1 _ rec hc
      obtain ⟨rec5, hmain, hocc, hcnt, hcnto, hcells, hcellso, hidx, hidxo,
        hmo, hcap, m5, hm5, hm5len, hm5cnt, hm5new, hm5copy⟩ :=
        addBlockAt_state s x y z t rec hc ho (hRwf t)
      rw [hmain, hdarr, Option.getD_some]
      have hpc : (⟨x, y, z⟩ : Pos) = posCenter (getCellKey x y z) := by
        rw [hck, hx, hy, hz]
        rfl
      rw [hpc] at hm5new
      have hwf5 : RecordWF rec5 := by
        intro q
        by_cases hq : q = t
        · subst hq
          exact batchWF_add rec rec5 q (getCellKey x y z) m5 (hRwf q) ho hocc
            hcnt hcells hidx hcap hm5 hm5len hm5cnt hm5new hm5copy
        · refine batchWF_transfer rec rec5 q (hRwf q) ?_ (hmo q hq).1
            (hidxo q hq) (hcellso q hq) (hcnto q hq) (hmo q hq).2
          intro c2
          rw [hocc]
          by_cases hcc : c2 = getCellKey x y z
          · subst hcc
            rw [mset_self, ho]
            constructor
            · intro hqq
              exact absurd (Option.some.inj hqq).symm hq
            · intro hqq
              exact Option.noConfusion hqq
          · rw [mset_other _ _ _ _ hcc]
      have hnotin : getCellKey x y z ∉ arr.map entryCell :=
        (occOfList_none_iff arr _).mp (by rw [← hsync]; exact ho)
      have hdw := hs.2 _ arr hdarr
      constructor
      · intro k
        intro rec2 hrec2
        by_cases hk : k = getChunkKey x y z
        · subst hk
          have hr2 : mset s.chunks (getChunkKey x y z) rec5
              (getChunkKey x y z) = some rec2 := hrec2
          rw [mset_self] at hr2
          obtain rfl := Option.some.inj hr2
          refine ⟨k0, hwf5, arr ++ [⟨x, y, z, t⟩], mset_self _ _ _, ?_⟩
          rw [occOfList_append_one, ← hsync]
          exact hocc
        · have hr2 : mset s.chunks (getChunkKey x y z) rec5 k = some rec2 :=
            hrec2
          rw [mset_other _ _ _ _ hk] at hr2
          obtain ⟨h0, hwf, arr2, hd2, hs2⟩ := hs.1 k rec2 hr2
          refine ⟨h0, hwf, arr2, ?_, hs2⟩
          show mset s.chunkData (getChunkKey x y z) _ k = some arr2
          rw [mset_other _ _ _ _ hk]
          exact hd2
      · intro k arr2 hd2
        by_cases hk : k = getChunkKey x y z
        · subst hk
          have hd2a : mset s.chunkData (getChunkKey x y z)
              (arr ++ [⟨x, y, z, t⟩]) (getChunkKey x y z) = some arr2 := hd2
          rw [mset_self] at hd2a
          obtain rfl := Option.some.inj hd2a
          have hec : entryCell ⟨x, y, z, t⟩ = c := hck
          constructor
          · intro e2 he2
            rcases List.mem_append.mp he2 with hin | hin
            · exact hdw.1 e2 hin
            · rw [List.mem_singleton] at hin
              subst hin
              constructor
              · simp only [entrySnapped, hec]
                exact ⟨hx, hy, hz⟩
              · rfl
          · rw [List.map_append, List.map_cons, List.map_nil,
              List.nodup_append]
            refine ⟨hdw.2, List.nodup_singleton _, ?_⟩
            intro a ha hb
            rw [List.mem_singleton] at hb
            subst hb
            exact hnotin ha
        · have hd2a : mset s.chunkData (getChunkKey x y z)
              (arr ++ [⟨x, y, z, t⟩]) k = some arr2 := hd2
          rw [mset_other _ _ _ _ hk] at hd2a
          exact hs.2 k arr2 hd2a

theorem batchWF_removeLast (rec r2 : ChunkRecord) (t : BlockType) (ck : Cell)
    (hB : BatchWF rec t) (ho : rec.occupancy ck = some t)
    (hidx : rec.indexMaps t ck = some (rec.counts t - 1))
    (hocc : r2.occupancy = mdel rec.occupancy ck)
    (hcnt : r2.counts t = rec.counts t - 1)
    (hcells : r2.cellsByIndex t
      = (rec.cellsByIndex t).take (rec.counts t - 1))
    (hidxm : r2.indexMaps t = mdel (rec.indexMaps t) ck)
    (hcap : r2.capacities t = rec.capacities t)
    (hmesh : r2.meshes t
      = Option.map (fun m => ⟨m.buffer, rec.counts t - 1⟩) (rec.meshes t)) :
    BatchWF r2 t := by
  have hidxcell : (rec.cellsByIndex t)[rec.counts t - 1]? = some ck :=
    hB.idx_cell ck _ hidx
  have hlen : (rec.cellsByIndex t).length = rec.counts t := hB.len
  constructor
  · rw [hcells, hcnt, List.length_take, hlen]
    exact min_eq_left (by omega)
  · intro c i h
    rw [hidxm] at h
    rw [hcells]
    by_cases hcc : c = ck
    · subst hcc
      rw [mdel_self] at h
      exact Option.noConfusion h
    · rw [mdel_other _ _ _ hcc] at h
      have h2 := hB.idx_cell c i h
      have hine : i ≠ rec.counts t - 1 := by
        intro hie
        subst hie
        rw [h2] at hidxcell
        exact hcc (Option.some.inj hidxcell)
      have hilt : i < (rec.cellsByIndex t).length :=
        getElem_lt_of_some _ _ _ h2
      rw [List.getElem?_take, if_pos (by rw [hlen] at hilt; omega)]
      exact h2
  · intro i c h
    rw [hcells] at h
    rw [hidxm]
    rw [List.getElem?_take] at h
    by_cases hit : i < rec.counts t - 1
    · rw [if_pos hit] at h
      have h2 := hB.cell_idx i c h
      have hcc : c ≠ ck := by
        intro hceq
        subst hceq
        rw [hidx] at h2
        have := Option.some.inj h2
        omega
      rw [mdel_other _ _ _ hcc]
      exact h2
    · rw [if_neg hit] at h
      exact Option.noConfusion h
  · intro c
    rw [hocc, hidxm]
    by_cases hcc : c = ck
    · subst hcc
      rw [mdel_self, mdel_self]
      simp
    · rw [mdel_other _ _ _ hcc, mdel_other _ _ _ hcc]
      exact hB.occ_idx c
  · rw [hcnt, hcap]
    have := hB.count_le
    omega
  · intro hnone
    rw [hmesh] at hnone
    rw [hcap]
    cases hm : rec.meshes t with
    | none => exact hB.mesh_none hm
    | some m0 =>
      rw [hm] at hnone
      exact Option.noConfusion hnone
  · intro m hm
    rw [hmesh] at hm
    cases hm0 : rec.meshes t with
    | none =>
      rw [hm0] at hm
      exact Option.noConfusion hm
    | some m0 =>
      rw [hm0] at hm
      obtain rfl := Option.some.inj hm
      rw [hcap, hcnt]
      obtain ⟨hl, _⟩ := hB.mesh_some m0 hm0
      exact ⟨hl, rfl⟩
  · intro i c h
    rw [hcells] at h
    rw [List.getElem?_take] at h
    by_cases hit : i < rec.counts t - 1
    · rw [if_pos hit] at h
      obtain ⟨m0, hm0, hbuf⟩ := hB.transform i c h
      refine ⟨⟨m0.buffer, rec.counts t - 1⟩, ?_, hbuf⟩
      rw [hmesh, hm0]
      rfl
    · rw [if_neg hit] at h
      exact Option.noConfusion h

theorem batchWF_removeSwap (rec r2 : ChunkRecord) (t : BlockType) (ck : Cell)
    (idx : ℕ) (hB : BatchWF rec t) (ho : rec.occupancy ck = some t)
    (hidx : rec.indexMaps t ck = some idx)
    (hil : idx ≠ rec.counts t - 1)
    (hocc : r2.occupancy = mdel rec.occupancy ck)
    (hcnt : r2.counts t = rec.counts t - 1)
    (hcells : r2.cellsByIndex t
      = ((rec.cellsByIndex t).set idx
          ((rec.cellsByIndex t).getD (rec.counts t - 1) (0, 0, 0))).take
          (rec.counts t - 1))
    (hidxm : r2.indexMaps t
      = mdel (mset (rec.indexMaps t)
          ((rec.cellsByIndex t).getD (rec.counts t - 1) (0, 0, 0)) idx) ck)
    (hcap : r2.capacities t = rec.capacities t)
    (hmesh : r2.meshes t
      = Option.map (fun m =>
          ⟨m.buffer.set idx (meshGetMatrixAt rec t (rec.counts t - 1)),
           rec.counts t - 1⟩) (rec.meshes t)) :
    BatchWF r2 t := by
  have hidxcell : (rec.cellsByIndex t)[idx]? = some ck :=
    hB.idx_cell ck idx hidx
  have hlen : (rec.cellsByIndex t).length = rec.counts t := hB.len
  have hidxlt : idx < rec.counts t := by
    have h1 := getElem_lt_of_some _ _ _ hidxcell
    rwa [hlen] at h1
  have hidxlt2 : idx < rec.counts t - 1 := by omega
  have hlastlen : rec.counts t - 1 < (rec.cellsByIndex t).length := by
    rw [hlen]
    omega
  have hlastcell : (rec.cellsByIndex t)[rec.counts t - 1]?
      = some ((rec.cellsByIndex t).getD (rec.counts t - 1) (0, 0, 0)) := by
    rw [List.getD_eq_getElem _ _ hlastlen]
    exact List.getElem?_eq_getElem hlastlen
  have hlastidx : rec.indexMaps t
      ((rec.cellsByIndex t).getD (rec.counts t - 1) (0, 0, 0))
      = some (rec.counts t - 1) := hB.cell_idx _ _ hlastcell
  have hlcne : (rec.cellsByIndex t).getD (rec.counts t - 1) (0, 0, 0) ≠ ck := by
    intro he
    rw [he, hidx] at hlastidx
    exact hil (Option.some.inj hlastidx)
  constructor
  · rw [hcells, hcnt, List.length_take, List.length_set, hlen]
    exact min_eq_left (by omega)
  · intro c i h
    rw [hidxm] at h
    rw [hcells]
    by_cases hcc : c = ck
    · subst hcc
      rw [mdel_self] at h
      exact Option.noConfusion h
    · rw [mdel_other _ _ _ hcc] at h
      by_cases hcl : c = (rec.cellsByIndex t).getD (rec.counts t - 1) (0, 0, 0)
      · subst hcl
        rw [mset_self] at h
        obtain rfl := Option.some.inj h
        rw [List.getElem?_take, if_pos hidxlt2, List.getElem?_set,
          if_pos rfl, if_pos (by rw [hlen]; omega)]
      · rw [mset_other _ _ _ _ hcl] at h
        have h2 := hB.idx_cell c i h
        have hine : i ≠ idx := by
          intro hie
          subst hie
          rw [h2] at hidxcell
          exact hcc (Option.some.inj hidxcell)
        have hinl : i ≠ rec.counts t - 1 := by
          intro hie
          subst hie
          rw [h2] at hlastcell
          exact hcl (Option.some.inj hlastcell)
        have hilt : i < (rec.cellsByIndex t).length :=
          getElem_lt_of_some _ _ _ h2
        rw [List.getElem?_take, if_pos (by rw [hlen] at hilt; omega),
          List.getElem?_set, if_neg (Ne.symm hine)]
        exact h2
  · intro i c h
    rw [hcells] at h
    rw [hidxm]
    rw [List.getElem?_take] at h
    by_cases hit : i < rec.counts t - 1
    · rw [if_pos hit, List.getElem?_set] at h
      by_cases hie : idx = i
      · rw [if_pos hie, if_pos (by rw [hlen]; omega)] at h
        obtain rfl := Option.some.inj h
        rw [mdel_other _ _ _ hlcne, mset_self, hie]
      · rw [if_neg hie] at h
        have h2 := hB.cell_idx i c h
        have hcc : c ≠ ck := by
          intro he
          subst he
          rw [hidx] at h2
          exact hie (Option.some.inj h2)
        have hcl : c ≠ (rec.cellsByIndex t).getD (rec.counts t - 1)
            (0, 0, 0) := by
          intro he
          subst he
          rw [hlastidx] at h2
          have := Option.some.inj h2
          omega
        rw [mdel_other _ _ _ hcc, mset_other _ _ _ _ hcl]
        exact h2
    · rw [if_neg hit] at h
      exact Option.noConfusion h
  · intro c
    rw [hocc, hidxm]
    by_cases hcc : c = ck
    · subst hcc
      rw [mdel_self, mdel_self]
      simp
    · rw [mdel_other _ _ _ hcc, mdel_other _ _ _ hcc]
      by_cases hcl : c = (rec.cellsByIndex t).getD (rec.counts t - 1) (0, 0, 0)
      · subst hcl
        rw [mset_self]
        simp only [Option.isSome_some, iff_true]
        exact (hB.occ_idx _).mpr (by rw [hlastidx]; rfl)
      · rw [mset_other _ _ _ _ hcl]
        exact hB.occ_idx c
  · rw [hcnt, hcap]
    have := hB.count_le
    omega
  · intro hnone
    rw [hmesh] at hnone
    rw [hcap]
    cases hm : rec.meshes t with
    | none => exact hB.mesh_none hm
    | some m0 =>
      rw [hm] at hnone
      exact Option.noConfusion hnone
  · intro m hm
    rw [hmesh] at hm
    cases hm0 : rec.meshes t with
    | none =>
      rw [hm0] at hm
      exact Option.noConfusion hm
    | some m0 =>
      rw [hm0] at hm
      obtain rfl := Option.some.inj hm
      rw [hcap, hcnt]
      obtain ⟨hl, _⟩ := hB.mesh_some m0 hm0
      refine ⟨?_, rfl⟩
      rw [List.length_set]
      exact hl
  · intro i c h
    rw [hcells] at h
    rw [List.getElem?_take] at h
    by_cases hit : i < rec.counts t - 1
    · rw [if_pos hit, List.getElem?_set] at h
      obtain ⟨m0, hm0, hbuf0⟩ := hB.transform (rec.counts t - 1) _ hlastcell
      obtain ⟨hblen, _⟩ := hB.mesh_some m0 hm0
      refine ⟨⟨m0.buffer.set idx (meshGetMatrixAt rec t (rec.counts t - 1)),
        rec.counts t - 1⟩, by rw [hmesh, hm0]; rfl, ?_⟩
      by_cases hie : idx = i
      · obtain rfl := hie
        rw [if_pos rfl, if_pos (by rw [hlen]; omega)] at h
        obtain rfl := Option.some.inj h
        have hP : meshGetMatrixAt rec t (rec.counts t - 1)
            = posCenter ((rec.cellsByIndex t).getD (rec.counts t - 1)
              (0, 0, 0)) := by
          unfold meshGetMatrixAt
          rw [hm0]
          show m0.buffer.getD (rec.counts t - 1) ⟨0, 0, 0⟩ = _
          have hbl : rec.counts t - 1 < m0.buffer.length :=
            getElem_lt_of_some _ _ _ hbuf0
          rw [List.getD_eq_getElem _ _ hbl]
          have hge := List.getElem?_eq_getElem hbl
          rw [hge] at hbuf0
          exact Option.some.inj hbuf0
        rw [List.getElem?_set, if_pos rfl,
          if_pos (by rw [hblen]; have := hB.count_le; omega), hP]
      · rw [if_neg hie] at h
        obtain ⟨m1, hm1, hbuf1⟩ := hB.transform i c h
        rw [hm1] at hm0
        obtain rfl := Option.some.inj hm0
        rw [List.getElem?_set, if_neg hie]
        exact hbuf1
    · rw [if_neg hit] at h
      exact Option.noConfusion h

theorem stateInv_removeBlockAt_center (s : GameState) (c : Cell)
    (x y z : ℚ) (hx : x = (c.1 : ℚ) + 1 / 2) (hy : y = (c.2.1 : ℚ) + 1 / 2)
    (hz : z = (c.2.2 : ℚ) + 1 / 2) (hs : StateInv s) :
    StateInv (removeBlockAt s x y z) := by
  have hck : getCellKey x y z = c := by
    rw [hx, hy, hz]
    exact getCellKey_center c
  cases hc : s.chunks (getChunkKey x y z) with
  | none =>
    have hno : removeBlockAt s x y z = s := by
      simp only [removeBlockAt, hc]
    rw [hno]
    exact hs
  | some rec =>
    cases ho : rec.occupancy (getCellKey x y z) with
    | none =>
      have hno : removeBlockAt s x y z = s := by
        simp only [removeBlockAt, hc, ho]
      rw [hno]
      exact hs
    | some t =>
      obtain ⟨k0, hRwf, arr, hdarr, hsync⟩ := hs.1 _ rec hc
      have hB := hRwf t
      have hisome : (rec.indexMaps t (getCellKey x y z)).isSome :=
        (hB.occ_idx _).mp ho
      obtain ⟨idx, hidx⟩ := Option.isSome_iff_exists.mp hisome
      rw [removeBlockAt_eq s x y z t rec arr idx hc ho hdarr hidx]
      have hdw := hs.2 _ arr hdarr
      have hidxcell : (rec.cellsByIndex t)[idx]? = some (getCellKey x y z) :=
        hB.idx_cell _ idx hidx
      have hidxlen : idx < (rec.cellsByIndex t).length :=
        getElem_lt_of_some _ _ _ hidxcell
      have hwfR : RecordWF (removeResultRecord rec t (getCellKey x y z) idx) := by
        intro q
        by_cases hq : q = t
        · subst hq
          have hcnt : (removeResultRecord rec q (getCellKey x y z) idx).counts q
              = rec.counts q - 1 := by
            rw [removeResultRecord_counts, tset_self]
          have hcap := congrFun
            (removeResultRecord_capacities rec q (getCellKey x y z) idx) q
          by_cases hil : idx = rec.counts q - 1
          · refine batchWF_removeLast rec _ q (getCellKey x y z) hB ho
              (by rw [← hil]; exact hidx)
              (removeResultRecord_occupancy rec q _ idx) hcnt ?_ ?_ hcap ?_
            · rw [removeResultRecord_cells, if_pos hil]
            · rw [removeResultRecord_indexMaps, if_pos hil]
            · rw [removeResultRecord_meshes]
              simp [hil]
          · refine batchWF_removeSwap rec _ q (getCellKey x y z) idx hB ho
              hidx hil (removeResultRecord_occupancy rec q _ idx) hcnt ?_ ?_
              hcap ?_
            · rw [removeResultRecord_cells, if_neg hil,
                jsArraySet_set _ _ _ _ hidxlen]
            · rw [removeResultRecord_indexMaps, if_neg hil]
            · rw [removeResultRecord_meshes]
              simp [hil]
        · refine batchWF_transfer rec _ q (hRwf q) ?_
            (removeResultRecord_meshes_other rec t _ idx q hq)
            (removeResultRecord_indexMaps_other rec t _ idx q hq)
            (removeResultRecord_cells_other rec t _ idx q hq)
            (by rw [removeResultRecord_counts, tset_other _ _ _ _ hq])
            (congrFun (removeResultRecord_capacities rec t _ idx) q)
          intro c2
          rw [removeResultRecord_occupancy]
          by_cases hcc : c2 = getCellKey x y z
          · subst hcc
            rw [mdel_self, ho]
            constructor
            · intro hno2
              exact Option.noConfusion hno2
            · intro hqq
              exact absurd (Option.some.inj hqq).symm hq
          · rw [mdel_other _ _ _ hcc]
      have hfe : (arr.filter fun q2 => ¬(q2.x = x ∧ q2.y = y ∧ q2.z = z))
          = arr.filter fun e => entryCell e ≠ c := by
        rw [hx, hy, hz]
        exact filter_coords_eq_filter_cell (getChunkKey x y z) arr c hdw
      have hoccR : (removeResultRecord rec t (getCellKey x y z) idx).occupancy
          = occOfList (arr.filter fun q2 =>
              ¬(q2.x = x ∧ q2.y = y ∧ q2.z = z)) := by
        rw [removeResultRecord_occupancy, hfe, occOfList_filter_cell,
          ← hsync, hck]
      have hdwf : DataWF (getChunkKey x y z)
          (arr.filter fun q2 => ¬(q2.x = x ∧ q2.y = y ∧ q2.z = z)) := by
        constructor
        · intro e he
          exact hdw.1 e (List.mem_of_mem_filter he)
        · exact hdw.2.sublist
            (List.Sublist.map entryCell (List.filter_sublist arr))
      constructor
      · intro k rec2 hrec2
        by_cases hk : k = getChunkKey x y z
        · subst hk
          have hr2 : mset s.chunks (getChunkKey x y z)
              (removeResultRecord rec t (getCellKey x y z) idx)
              (getChunkKey x y z) = some rec2 := hrec2
          rw [mset_self] at hr2
          obtain rfl := Option.some.inj hr2
          exact ⟨k0, hwfR, _, mset_self _ _ _, hoccR⟩
        · have hr2 : mset s.chunks (getChunkKey x y z)
              (removeResultRecord rec t (getCellKey x y z) idx) k
              = some rec2 := hrec2
          rw [mset_other _ _ _ _ hk] at hr2
          obtain ⟨h0, hwf, arr2, hd2, hs2⟩ := hs.1 k rec2 hr2
          refine ⟨h0, hwf, arr2, ?_, hs2⟩
          show mset s.chunkData (getChunkKey x y z) _ k = some arr2
          rw [mset_other _ _ _ _ hk]
          exact hd2
      · intro k arr2 hd2
        by_cases hk : k = getChunkKey x y z
        · subst hk
          have hd2a : mset s.chunkData (getChunkKey x y z)
              (arr.filter fun q2 => ¬(q2.x = x ∧ q2.y = y ∧ q2.z = z))
              (getChunkKey x y z) = some arr2 := hd2
          rw [mset_self] at hd2a
          obtain rfl := Option.some.inj hd2a
          exact hdwf
        · have hd2a : mset s.chunkData (getChunkKey x y z)
              (arr.filter fun q2 => ¬(q2.x = x ∧ q2.y = y ∧ q2.z = z)) k
              = some arr2 := hd2
          rw [mset_other _ _ _ _ hk] at hd2a
          exact hs.2 k arr2 hd2a

theorem stateInv_applyEdit (s : GameState) (e : Edit) (hs : StateInv s) :
    StateInv (applyEdit s e) := by
  cases e with
  | add c t => exact stateInv_addBlockAt_center s c t _ _ _ rfl rfl rfl hs
  | remove c => exact stateInv_removeBlockAt_center s c _ _ _ rfl rfl rfl hs

theorem stateInv_applyEdits (s : GameState) (es : List Edit)
    (hs : StateInv s) : StateInv (applyEdits s es) := by
  induction es generalizing s with
  | nil => exact hs
  | cons e T ih => exact ih _ (stateInv_applyEdit s e hs)

/-- Claim C2: starting from any well-formed streaming state, after any
sequence of `addCell`/`removeCell` edits every resident chunk record is
well-formed for both materials (`BatchWF`): the index→cell array covers
exactly `[0, counts)` with no gaps, the cell→index and index→cell
correspondences agree in both directions, a cell is occupied with the
material iff it has exactly one slot, the mesh draws exactly `counts`
instances in a `capacities`-sized store, and every active slot holds the
center transform of its cell. -/
theorem C2_batch_density (s : GameState) (es : List Edit) (hs : StateInv s)
    (k : ChunkKey) (rec : ChunkRecord)
    (h : (applyEdits s es).chunks k = some rec) :
    RecordWF rec :=
  ((stateInv_applyEdits s es hs).1 k rec h).2.1

theorem C2_batch_density_witness :
    RecordWF (mkRecFromArray (generateGroundArrayForChunk 0 0)) :=
  C2_batch_density (loadOrGenerateChunk emptyState 0 0) []
    (stateInv_loadOrGenerateChunk emptyState 0 0 stateInv_empty)
    (0, 0, 0) (mkRecFromArray (generateGroundArrayForChunk 0 0)) rfl

/-- Claim C1: round-trip persistence.  Starting from any well-formed
streaming state, after any sequence of `addCell`/`removeCell` edits, for any
resident chunk: unloading it and then reloading it (which rebuilds it from
its Chunk Data Cache entry) yields a record whose occupancy map — the
cell→material assignment — is exactly the occupancy at the moment of
unload. -/
theorem C1_round_trip_persistence (s : GameState) (es : List Edit)
    (hs : StateInv s) (k : ChunkKey) (rec1 : ChunkRecord)
    (h1 : (applyEdits s es).chunks k = some rec1) :
    ∃ rec2,
      (loadOrGenerateChunk (unloadChunk (applyEdits s es) k)
          k.1 k.2.2).chunks k = some rec2 ∧
      rec2.occupancy = rec1.occupancy := by
  have hs1 := stateInv_applyEdits s es hs
  obtain ⟨k0, hwf, arr, hdarr, hsync⟩ := hs1.1 k rec1 h1
  have hdwf := hs1.2 k arr hdarr
  have hu : unloadChunk (applyEdits s es) k
      = { applyEdits s es with
          chunks := mdel (applyEdits s es).chunks k } := by
    simp only [unloadChunk, h1]
  obtain ⟨a, b, c2⟩ := k
  dsimp only at k0
  subst k0
  refine ⟨mkRecFromArray arr, ?_, ?_⟩
  · show (loadOrGenerateChunk (unloadChunk (applyEdits s es) (a, 0, c2))
        a c2).chunks (a, 0, c2) = _
    rw [hu]
    refine (loadOrGenerateChunk_from_cache _ a c2 arr ?_ ?_).1
    · exact mdel_self _ _
    · exact hdarr
  · rw [(mkRecFromArray_wf _ arr hdwf).2, hsync]

theorem C1_round_trip_persistence_witness :
    ∃ rec2,
      (loadOrGenerateChunk
          (unloadChunk (applyEdits (loadOrGenerateChunk emptyState 0 0) [])
            (0, 0, 0)) 0 0).chunks (0, 0, 0) = some rec2 ∧
      rec2.occupancy
        = (mkRecFromArray (generateGroundArrayForChunk 0 0)).occupancy :=
  C1_round_trip_persistence (loadOrGenerateChunk emptyState 0 0) []
    (stateInv_loadOrGenerateChunk emptyState 0 0 stateInv_empty) (0, 0, 0)
    (mkRecFromArray (generateGroundArrayForChunk 0 0)) rfl

/-! ## Remove-then-re-add (claim C8) -/

theorem readd_slot (s : GameState) (c : Cell) (t : BlockType) (x y z : ℚ)
    (hx : x = (c.1 : ℚ) + 1 / 2) (hy : y = (c.2.1 : ℚ) + 1 / 2)
    (hz : z = (c.2.2 : ℚ) + 1 / 2) (hs : StateInv s)
    (rec : ChunkRecord) (idx : ℕ)
    (hc : s.chunks (getChunkKey x y z) = some rec)
    (ho : rec.occupancy (getCellKey x y z) = some t)
    (hidx : rec.indexMaps t (getCellKey x y z) = some idx) :
    ∃ rec2,
      (addBlockAt (removeBlockAt s x y z) x y z t).chunks
          (getChunkKey x y z) = some rec2 ∧
      rec2.indexMaps t (getCellKey x y z) = some (rec.counts t - 1) ∧
      rec2.occupancy (getCellKey x y z) = some t := by
  obtain ⟨k0, hRwf, arr, hdarr, hsync⟩ := hs.1 _ rec hc
  have hrm := removeBlockAt_eq s x y z t rec arr idx hc ho hdarr hidx
  have hcR : (removeBlockAt s x y z).chunks (getChunkKey x y z)
      = some (removeResultRecord rec t (getCellKey x y z) idx) := by
    rw [hrm]
    exact mset_self _ _ _
  have hoR : (removeResultRecord rec t (getCellKey x y z) idx).occupancy
      (getCellKey x y z) = none := by
    rw [removeResultRecord_occupancy]
    exact mdel_self _ _
  have hs1 := stateInv_removeBlockAt_center s c x y z hx hy hz hs
  have hwfR := (hs1.1 _ _ hcR).2.1
  obtain ⟨rec5, hmain, hocc5, hcnt5, _, _, _, hidx5, _, _, _, m5, _, _, _,
    _, _⟩ := addBlockAt_state (removeBlockAt s x y z) x y z t _ hcR hoR
    (hwfR t)
  refine ⟨rec5, ?_, ?_, ?_⟩
  · rw [hmain]
    exact mset_self _ _ _
  · rw [hidx5, mset_self, removeResultRecord_counts, tset_self]
  · rw [hocc5]
    exact mset_self _ _ _

theorem cellKey_half : getCellKey (1 / 2) (1 / 2) (1 / 2) = ((0, 0, 0) : Cell) := by
  simp only [getCellKey, Prod.mk.injEq]
  norm_num

theorem chunkKey_half :
    getChunkKey (1 / 2) (1 / 2) (1 / 2) = ((0, 0, 0) : ChunkKey) := by
  simp only [getChunkKey, chunkSize_cast, Prod.mk.injEq]
  norm_num

theorem oneBlock_dataWF : DataWF (0, 0, 0) oneBlockArr := by
  constructor
  · intro e he
    simp only [oneBlockArr, List.mem_singleton] at he
    subst he
    have hec : entryCell ⟨1 / 2, 1 / 2, 1 / 2, .green⟩ = ((0, 0, 0) : Cell) :=
      cellKey_half
    refine ⟨⟨?_, ?_, ?_⟩, chunkKey_half⟩
    · rw [hec]
      norm_num
    · rw [hec]
      norm_num
    · rw [hec]
      norm_num
  · simp [oneBlockArr]

theorem stateInv_oneBlockBase : StateInv oneBlockBase := by
  constructor
  · intro k rec h
    exact Option.noConfusion h
  · intro k arr h
    by_cases hk : k = (0, 0, 0)
    · subst hk
      have h2 : mset emptyState.chunkData (0, 0, 0) oneBlockArr (0, 0, 0)
          = some arr := h
      rw [mset_self] at h2
      obtain rfl := Option.some.inj h2
      exact oneBlock_dataWF
    · have h2 : mset emptyState.chunkData (0, 0, 0) oneBlockArr k
          = some arr := h
      rw [mset_other _ _ _ _ hk] at h2
      exact Option.noConfusion h2

theorem stateInv_oneBlockState : StateInv oneBlockState :=
  stateInv_loadOrGenerateChunk oneBlockBase 0 0 stateInv_oneBlockBase

theorem oneBlock_chunkData :
    oneBlockBase.chunkData (0, 0, 0) = some oneBlockArr := by
  show mset emptyState.chunkData (0, 0, 0) oneBlockArr (0, 0, 0)
      = some oneBlockArr
  exact mset_self _ _ _

theorem oneBlock_chunks :
    oneBlockState.chunks (0, 0, 0) = some (mkRecFromArray oneBlockArr) :=
  (loadOrGenerateChunk_from_cache oneBlockBase 0 0 oneBlockArr rfl
    oneBlock_chunkData).1

theorem oneBlock_occ :
    (mkRecFromArray oneBlockArr).occupancy (getCellKey (1 / 2) (1 / 2) (1 / 2))
      = some .green := by
  rw [(mkRecFromArray_wf (0, 0, 0) oneBlockArr oneBlock_dataWF).2]
  have ho1 : occOfList oneBlockArr
      = mset (fun _ => none : Cell → Option BlockType)
          (entryCell ⟨1 / 2, 1 / 2, 1 / 2, .green⟩) .green := rfl
  have hk : getCellKey (1 / 2 : ℚ) (1 / 2) (1 / 2)
      = entryCell ⟨1 / 2, 1 / 2, 1 / 2, .green⟩ := rfl
  rw [ho1, hk]
  exact mset_self _ _ _

theorem oneBlock_idx :
    (mkRecFromArray oneBlockArr).indexMaps .green
      (getCellKey (1 / 2) (1 / 2) (1 / 2)) = some 0 := by
  have hwf := ((mkRecFromArray_wf (0, 0, 0) oneBlockArr oneBlock_dataWF).1)
    .green
  have hcells : (mkRecFromArray oneBlockArr).cellsByIndex .green
      = [entryCell ⟨1 / 2, 1 / 2, 1 / 2, .green⟩] := rfl
  have h0 : ((mkRecFromArray oneBlockArr).cellsByIndex .green)[0]?
      = some (getCellKey (1 / 2) (1 / 2) (1 / 2)) := by
    rw [hcells]
    rfl
  exact hwf.cell_idx 0 _ h0

/-- Claim C8 (corrected): removing the block at an occupied cell and re-adding
one at the same cell always places it at slot `counts[type] - 1` — the last
active slot before the removal.  This *equals* the original slot exactly when
the original slot was already the last one; in particular, in the spec's own
scenario of removing the *only* block at a cell and re-adding it, the slot is
unchanged (0 before and after), so "yields a different slot index" is false in
general.  The occupancy does map the cell to the given material afterwards. -/
theorem C8_remove_readd_slot (s : GameState) (c : Cell) (t : BlockType)
    (x y z : ℚ) (hx : x = (c.1 : ℚ) + 1 / 2) (hy : y = (c.2.1 : ℚ) + 1 / 2)
    (hz : z = (c.2.2 : ℚ) + 1 / 2) (hs : StateInv s)
    (rec : ChunkRecord) (idx : ℕ)
    (hc : s.chunks (getChunkKey x y z) = some rec)
    (ho : rec.occupancy (getCellKey x y z) = some t)
    (hidx : rec.indexMaps t (getCellKey x y z) = some idx) :
    ∃ rec2,
      (addBlockAt (removeBlockAt s x y z) x y z t).chunks
          (getChunkKey x y z) = some rec2 ∧
      rec2.indexMaps t (getCellKey x y z) = some (rec.counts t - 1) ∧
      (rec2.indexMaps t (getCellKey x y z)
          = rec.indexMaps t (getCellKey x y z) ↔ idx = rec.counts t - 1) ∧
      rec2.occupancy (getCellKey x y z) = some t := by
  obtain ⟨rec2, h1, h2, h3⟩ :=
    readd_slot s c t x y z hx hy hz hs rec idx hc ho hidx
  refine ⟨rec2, h1, h2, ?_, h3⟩
  rw [h2, hidx, Option.some.injEq]
  exact eq_comm

theorem C8_remove_readd_slot_witness :
    ∃ rec2,
      (addBlockAt (removeBlockAt oneBlockState (1 / 2) (1 / 2) (1 / 2))
          (1 / 2) (1 / 2) (1 / 2) .green).chunks
          (getChunkKey (1 / 2) (1 / 2) (1 / 2)) = some rec2 ∧
      rec2.indexMaps .green (getCellKey (1 / 2) (1 / 2) (1 / 2))
        = some ((mkRecFromArray oneBlockArr).counts .green - 1) ∧
      (rec2.indexMaps .green (getCellKey (1 / 2) (1 / 2) (1 / 2))
          = (mkRecFromArray oneBlockArr).indexMaps .green
            (getCellKey (1 / 2) (1 / 2) (1 / 2)) ↔
        0 = (mkRecFromArray oneBlockArr).counts .green - 1) ∧
      rec2.occupancy (getCellKey (1 / 2) (1 / 2) (1 / 2)) = some .green :=
  C8_remove_readd_slot oneBlockState (0, 0, 0) .green (1 / 2) (1 / 2) (1 / 2)
    (by norm_num) (by norm_num) (by norm_num) stateInv_oneBlockState
    (mkRecFromArray oneBlockArr) 0
    (by rw [chunkKey_half]; exact oneBlock_chunks) oneBlock_occ oneBlock_idx

/-- Counterexample to claim C8 as stated: in a chunk holding exactly one green
block at cell `(0, 0, 0)`, that block sits at slot 0; removing it and
re-adding a green block at the same cell puts the block at slot 0 again — the
same slot index as before the removal, not a different one. -/
theorem C8_counterexample :
    ∃ rec2,
      oneBlockState.chunks (0, 0, 0) = some (mkRecFromArray oneBlockArr) ∧
      (mkRecFromArray oneBlockArr).indexMaps .green
        (getCellKey (1 / 2) (1 / 2) (1 / 2)) = some 0 ∧
      (mkRecFromArray oneBlockArr).occupancy
        (getCellKey (1 / 2) (1 / 2) (1 / 2)) = some .green ∧
      (addBlockAt (removeBlockAt oneBlockState (1 / 2) (1 / 2) (1 / 2))
          (1 / 2) (1 / 2) (1 / 2) .green).chunks (0, 0, 0) = some rec2 ∧
      rec2.indexMaps .green (getCellKey (1 / 2) (1 / 2) (1 / 2)) = some 0 := by
  obtain ⟨rec2, h1, h2, h3⟩ := readd_slot oneBlockState (0, 0, 0) .green
    (1 / 2) (1 / 2) (1 / 2) (by norm_num) (by norm_num) (by norm_num)
    stateInv_oneBlockState (mkRecFromArray oneBlockArr) 0
    (by rw [chunkKey_half]; exact oneBlock_chunks) oneBlock_occ oneBlock_idx
  rw [chunkKey_half] at h1
  exact ⟨rec2, oneBlock_chunks, oneBlock_idx, oneBlock_occ, h1, h2⟩

/-! ## Collision geometry (claims C3 and C10) -/

theorem range6_first_hit {α : Type*} (f : ℕ → Option α) (i0 : ℕ)
    (hi0 : i0 < 6) (hnone : ∀ j, j < i0 → f j = none) (a : α)
    (ha : f i0 = some a) :
    (List.range 6).findSome? f = some a := by
  have h6 : List.range 6 = [0, 1, 2, 3, 4, 5] := rfl
  rw [h6]
  interval_cases i0 <;>
    simp [List.findSome?_cons, ha, hnone 0, hnone 1, hnone 2, hnone 3,
      hnone 4]

theorem capsuleIC_first_hit (cap : CapsuleV) (b : Box3V) (i0 : ℕ)
    (hi0 : i0 < 6) (hhit : distAt cap b i0 < cap.radius)
    (hfirst : ∀ j, j < i0 → ¬(distAt cap b j < cap.radius)) :
    capsuleIntersectCorrection cap b = some (hitResultAt cap b i0) := by
  unfold capsuleIntersectCorrection
  refine range6_first_hit _ i0 hi0 ?_ _ ?_
  · intro j hj
    rw [if_neg (hfirst j hj)]
  · rw [if_pos hhit]

theorem lengthV_zero_triple : lengthV ⟨0, 0, 0⟩ = 0 := by
  simp [lengthV]

theorem normalizeV_zero : normalizeV ⟨0, 0, 0⟩ = ⟨0, 0, 0⟩ := by
  simp [normalizeV, scaleV]

theorem scaleV_zero_vec (k : ℝ) : scaleV k ⟨0, 0, 0⟩ = ⟨0, 0, 0⟩ := by
  simp [scaleV]

theorem lengthV_eq_zero (v : V3) (h : lengthV v = 0) : v = ⟨0, 0, 0⟩ := by
  obtain ⟨a, b, c⟩ := v
  simp only [lengthV] at h
  have hsum : a ^ 2 + b ^ 2 + c ^ 2 ≤ 0 := Real.sqrt_eq_zero'.mp h
  have ha : a = 0 := by nlinarith [sq_nonneg a, sq_nonneg b, sq_nonneg c]
  have hb : b = 0 := by nlinarith [sq_nonneg a, sq_nonneg b, sq_nonneg c]
  have hc : c = 0 := by nlinarith [sq_nonneg a, sq_nonneg b, sq_nonneg c]
  simp [ha, hb, hc]

theorem subV_zero_swap (a b : V3) (h : subV a b = ⟨0, 0, 0⟩) :
    subV b a = ⟨0, 0, 0⟩ := by
  simp only [subV, V3.mk.injEq] at h ⊢
  obtain ⟨h1, h2, h3⟩ := h
  refine ⟨?_, ?_, ?_⟩ <;> linarith

theorem translateCapsule_zero (c : CapsuleV) :
    translateCapsule c ⟨0, 0, 0⟩ = c := by
  obtain ⟨⟨sx, sy, sz⟩, ⟨ex, ey, ez⟩, r⟩ := c
  simp [translateCapsule, addV]

theorem velocity_zero_normal (v : V3) :
    subV v (scaleV (dotV v ⟨0, 0, 0⟩) ⟨0, 0, 0⟩) = v := by
  obtain ⟨a, b, c⟩ := v
  simp [subV, scaleV, dotV]

/-- Claim C3 (corrected): the first of the 6 segment samples strictly within
`radius` of the cube yields the returned hit.  Its push direction is
`normalize(sample - closest)` — *from the closest point on the cube toward
the sample*, the opposite of the claimed "from sample to closest" — scaled by
`radius - dist`.  Because `multiplyScalar` mutates the vector in place, the
returned `normal` is the *scaled* correction itself (not a unit vector), and
the velocity update `velocity -= normal * (velocity . normal)` therefore
subtracts `(radius - dist)^2` times the component along the push direction
rather than removing the whole component. -/
theorem C3_pushout (cap : CapsuleV) (vel : V3) (c : Cell) (i0 : ℕ)
    (hi0 : i0 < 6) (hhit : distAt cap (boxForCell c) i0 < cap.radius)
    (hfirst : ∀ j, j < i0 → ¬(distAt cap (boxForCell c) j < cap.radius)) :
    capsuleIntersectCorrection cap (boxForCell c)
        = some (hitResultAt cap (boxForCell c) i0) ∧
    (hitResultAt cap (boxForCell c) i0).correction
        = scaleV (cap.radius - distAt cap (boxForCell c) i0)
            (normalizeV (subV (sampleAt cap i0)
              (closestAt cap (boxForCell c) i0))) ∧
    (hitResultAt cap (boxForCell c) i0).normal
        = (hitResultAt cap (boxForCell c) i0).correction ∧
    collideCellStep cap vel c
        = (translateCapsule cap (hitResultAt cap (boxForCell c) i0).correction,
           subV vel
             (scaleV (dotV vel (hitResultAt cap (boxForCell c) i0).normal)
               (hitResultAt cap (boxForCell c) i0).normal)) := by
  have h1 := capsuleIC_first_hit cap (boxForCell c) i0 hi0 hhit hfirst
  refine ⟨h1, rfl, rfl, ?_⟩
  simp only [collideCellStep, h1]

theorem sampleAt_point (p : V3) (r : ℝ) (i : ℕ) :
    sampleAt ⟨p, p, r⟩ i = p := by
  have hseg : segV ⟨p, p, r⟩ = ⟨0, 0, 0⟩ := by
    obtain ⟨a, b, c⟩ := p
    simp [segV, subV]
  simp only [sampleAt, hseg, lengthV_zero_triple, normalizeV_zero,
    scaleV_zero_vec]
  show addV ⟨0, 0, 0⟩ p = p
  obtain ⟨a, b, c⟩ := p
  simp [addV]

theorem cex_sample0 : sampleAt cexCap 0 = ⟨4 / 5, 1 / 2, 1 / 2⟩ :=
  sampleAt_point ⟨4 / 5, 1 / 2, 1 / 2⟩ (7 / 20) 0

theorem cex_closest0 :
    closestAt cexCap (boxForCell (1, 0, 0)) 0 = ⟨1, 1 / 2, 1 / 2⟩ := by
  simp only [closestAt, cex_sample0, clampPointV, boxForCell, subV, addV]
  norm_num [min_def, max_def]

theorem cex_dist0 : distAt cexCap (boxForCell (1, 0, 0)) 0 = 1 / 5 := by
  simp only [distAt, distV, cex_sample0, cex_closest0]
  have hsub : subV ⟨1, 1 / 2, 1 / 2⟩ (⟨4 / 5, 1 / 2, 1 / 2⟩ : V3)
      = ⟨1 / 5, 0, 0⟩ := by
    simp [subV]
    norm_num
  rw [hsub]
  simp only [lengthV]
  rw [show (1 / 5 : ℝ) ^ 2 + 0 ^ 2 + 0 ^ 2 = (1 / 5) ^ 2 by norm_num]
  exact Real.sqrt_sq (by norm_num)

theorem cex_push0 :
    normalizeV (subV (sampleAt cexCap 0)
        (closestAt cexCap (boxForCell (1, 0, 0)) 0))
      = ⟨-1, 0, 0⟩ := by
  rw [cex_sample0, cex_closest0]
  have hsub : subV ⟨4 / 5, 1 / 2, 1 / 2⟩ (⟨1, 1 / 2, 1 / 2⟩ : V3)
      = ⟨-(1 / 5), 0, 0⟩ := by
    simp [subV]
    norm_num
  rw [hsub]
  have hlen : lengthV ⟨-(1 / 5), 0, 0⟩ = 1 / 5 := by
    simp only [lengthV]
    rw [show (-(1 / 5) : ℝ) ^ 2 + 0 ^ 2 + 0 ^ 2 = (1 / 5) ^ 2 by norm_num]
    exact Real.sqrt_sq (by norm_num)
  simp only [normalizeV, hlen]
  rw [if_neg (by norm_num)]
  simp [scaleV]

theorem cex_hit0 :
    hitResultAt cexCap (boxForCell (1, 0, 0)) 0
      = ⟨⟨-(3 / 20), 0, 0⟩, ⟨-(3 / 20), 0, 0⟩⟩ := by
  simp only [hitResultAt, cex_push0, cex_dist0]
  rw [show cexCap.radius = 7 / 20 from rfl]
  simp [scaleV]
  norm_num

theorem cex_corr :
    capsuleIntersectCorrection cexCap (boxForCell (1, 0, 0))
      = some ⟨⟨-(3 / 20), 0, 0⟩, ⟨-(3 / 20), 0, 0⟩⟩ := by
  rw [← cex_hit0]
  refine capsuleIC_first_hit cexCap _ 0 (by norm_num) ?_
    (fun j hj => absurd hj (Nat.not_lt_zero j))
  rw [cex_dist0]
  show (1 / 5 : ℝ) < cexCap.radius
  norm_num [cexCap]

theorem cex_claimed0 :
    (claimedHitResultAt cexCap (boxForCell (1, 0, 0)) 0).correction
      = ⟨3 / 20, 0, 0⟩ := by
  have hdir : normalizeV (subV (closestAt cexCap (boxForCell (1, 0, 0)) 0)
      (sampleAt cexCap 0)) = ⟨1, 0, 0⟩ := by
    rw [cex_sample0, cex_closest0]
    have hsub : subV ⟨1, 1 / 2, 1 / 2⟩ (⟨4 / 5, 1 / 2, 1 / 2⟩ : V3)
        = ⟨1 / 5, 0, 0⟩ := by
      simp [subV]
      norm_num
    rw [hsub]
    have hlen : lengthV ⟨1 / 5, 0, 0⟩ = 1 / 5 := by
      simp only [lengthV]
      rw [show (1 / 5 : ℝ) ^ 2 + 0 ^ 2 + 0 ^ 2 = (1 / 5) ^ 2 by norm_num]
      exact Real.sqrt_sq (by norm_num)
    simp only [normalizeV, hlen]
    rw [if_neg (by norm_num)]
    simp [scaleV]
  simp only [claimedHitResultAt, hdir, cex_dist0]
  rw [show cexCap.radius = 7 / 20 from rfl]
  simp [scaleV]
  norm_num

theorem cex_vel :
    (collideCellStep cexCap ⟨1, 0, 0⟩ (1, 0, 0)).2 = ⟨391 / 400, 0, 0⟩ := by
  simp only [collideCellStep, cex_corr]
  simp [subV, scaleV, dotV]
  norm_num

/-- Counterexample to claim C3 as stated: a point capsule at
`(0.8, 0.5, 0.5)` with radius `0.35` against the cube of cell `(1, 0, 0)`
(closest point `(1, 0.5, 0.5)`, distance `0.2`).  The code's correction is
`(-0.15, 0, 0)` — direction from the closest point toward the sample — while
the claimed direction "from sample to closest, normalized, magnitude
radius − distance" gives `(0.15, 0, 0)`.  And with incoming velocity
`(1, 0, 0)`, entirely along the push axis, the code leaves velocity
`(391/400, 0, 0)`, not `0`: the component along the push direction is *not*
removed, because the `normal` used in the velocity update is the scaled
(non-unit) correction vector. -/
theorem C3_counterexample :
    ∃ r, capsuleIntersectCorrection cexCap (boxForCell (1, 0, 0)) = some r ∧
      r.correction = ⟨-(3 / 20), 0, 0⟩ ∧
      (claimedHitResultAt cexCap (boxForCell (1, 0, 0)) 0).correction
        = ⟨3 / 20, 0, 0⟩ ∧
      r.correction
        ≠ (claimedHitResultAt cexCap (boxForCell (1, 0, 0)) 0).correction ∧
      (collideCellStep cexCap ⟨1, 0, 0⟩ (1, 0, 0)).2 = ⟨391 / 400, 0, 0⟩ ∧
      (collideCellStep cexCap ⟨1, 0, 0⟩ (1, 0, 0)).2 ≠ ⟨0, 0, 0⟩ := by
  refine ⟨⟨⟨-(3 / 20), 0, 0⟩, ⟨-(3 / 20), 0, 0⟩⟩, cex_corr, rfl, cex_claimed0,
    ?_, cex_vel, ?_⟩
  · rw [cex_claimed0]
    intro h
    have hx := congrArg V3.x h
    norm_num at hx
  · rw [cex_vel]
    intro h
    have hx := congrArg V3.x h
    norm_num at hx

theorem C3_pushout_witness :
    capsuleIntersectCorrection cexCap (boxForCell (1, 0, 0))
        = some (hitResultAt cexCap (boxForCell (1, 0, 0)) 0) ∧
    (hitResultAt cexCap (boxForCell (1, 0, 0)) 0).correction
        = scaleV (cexCap.radius - distAt cexCap (boxForCell (1, 0, 0)) 0)
            (normalizeV (subV (sampleAt cexCap 0)
              (closestAt cexCap (boxForCell (1, 0, 0)) 0))) ∧
    (hitResultAt cexCap (boxForCell (1, 0, 0)) 0).normal
        = (hitResultAt cexCap (boxForCell (1, 0, 0)) 0).correction ∧
    collideCellStep cexCap ⟨1, 0, 0⟩ (1, 0, 0)
        = (translateCapsule cexCap
            (hitResultAt cexCap (boxForCell (1, 0, 0)) 0).correction,
           subV ⟨1, 0, 0⟩
             (scaleV (dotV ⟨1, 0, 0⟩
                 (hitResultAt cexCap (boxForCell (1, 0, 0)) 0).normal)
               (hitResultAt cexCap (boxForCell (1, 0, 0)) 0).normal)) :=
  C3_pushout cexCap ⟨1, 0, 0⟩ (1, 0, 0) 0 (by norm_num)
    (by rw [cex_dist0]; show (1 / 5 : ℝ) < cexCap.radius; norm_num [cexCap])
    (fun j hj => absurd hj (Nat.not_lt_zero j))

/-- Claim C10: when the first sample found within the radius lies exactly at
its closest point on the cube (distance `0`, e.g. the sample is inside the
cube), no NaN arises — three.js `normalize` maps the zero vector to the zero
vector — and the hit carries a zero correction and zero normal, so the
collision step translates the capsule by zero and leaves the velocity
unchanged for that cell: fully interior penetrations are never pushed out. -/
theorem C10_zero_distance_degenerate (cap : CapsuleV) (vel : V3) (c : Cell)
    (i0 : ℕ) (hi0 : i0 < 6)
    (hhit : distAt cap (boxForCell c) i0 < cap.radius)
    (hfirst : ∀ j, j < i0 → ¬(distAt cap (boxForCell c) j < cap.radius))
    (hzero : distAt cap (boxForCell c) i0 = 0) :
    hitResultAt cap (boxForCell c) i0 = ⟨⟨0, 0, 0⟩, ⟨0, 0, 0⟩⟩ ∧
    capsuleIntersectCorrection cap (boxForCell c)
        = some ⟨⟨0, 0, 0⟩, ⟨0, 0, 0⟩⟩ ∧
    collideCellStep cap vel c = (cap, vel) := by
  have hsub : subV (closestAt cap (boxForCell c) i0) (sampleAt cap i0)
      = ⟨0, 0, 0⟩ := by
    apply lengthV_eq_zero
    exact hzero
  have hsub2 : subV (sampleAt cap i0) (closestAt cap (boxForCell c) i0)
      = ⟨0, 0, 0⟩ := subV_zero_swap _ _ hsub
  have hhit0 : hitResultAt cap (boxForCell c) i0
      = ⟨⟨0, 0, 0⟩, ⟨0, 0, 0⟩⟩ := by
    simp only [hitResultAt, hsub2, normalizeV_zero, scaleV_zero_vec]
  have hcorr := capsuleIC_first_hit cap (boxForCell c) i0 hi0 hhit hfirst
  rw [hhit0] at hcorr
  refine ⟨hhit0, hcorr, ?_⟩
  simp only [collideCellStep, hcorr]
  rw [translateCapsule_zero, velocity_zero_normal]

theorem inside_sample0 : sampleAt insideCap 0 = ⟨1 / 2, 1 / 2, 1 / 2⟩ :=
  sampleAt_point ⟨1 / 2, 1 / 2, 1 / 2⟩ (7 / 20) 0

theorem inside_closest0 :
    closestAt insideCap (boxForCell (0, 0, 0)) 0 = ⟨1 / 2, 1 / 2, 1 / 2⟩ := by
  simp only [closestAt, inside_sample0, clampPointV, boxForCell, subV, addV]
  norm_num [min_def, max_def]

theorem inside_dist0 : distAt insideCap (boxForCell (0, 0, 0)) 0 = 0 := by
  simp only [distAt, distV, inside_sample0, inside_closest0]
  have hsub : subV ⟨1 / 2, 1 / 2, 1 / 2⟩ (⟨1 / 2, 1 / 2, 1 / 2⟩ : V3)
      = ⟨0, 0, 0⟩ := by
    simp [subV]
  rw [hsub, lengthV_zero_triple]

theorem C10_zero_distance_degenerate_witness :
    hitResultAt insideCap (boxForCell (0, 0, 0)) 0
        = ⟨⟨0, 0, 0⟩, ⟨0, 0, 0⟩⟩ ∧
    capsuleIntersectCorrection insideCap (boxForCell (0, 0, 0))
        = some ⟨⟨0, 0, 0⟩, ⟨0, 0, 0⟩⟩ ∧
    collideCellStep insideCap ⟨1, 2, 3⟩ (0, 0, 0) = (insideCap, ⟨1, 2, 3⟩) :=
  C10_zero_distance_degenerate insideCap ⟨1, 2, 3⟩ (0, 0, 0) 0 (by norm_num)
    (by rw [inside_dist0]; norm_num [insideCap])
    (fun j hj => absurd hj (Nat.not_lt_zero j)) inside_dist0

end VoxelGame
